import Mathlib

/-!
Verification of the core kernel of a small RISC-V operating system
(`operating-system-in-1000-lines`, Rust implementation).

The definitions below are a shallow embedding of the kernel sources:

* `src/kernel/src/address.rs`   — `align_up`
* `src/kernel/src/tar.rs`       — `oct2int`, `int2oct`, `fs_flush`, `fs_init`,
                                  `Files::fs_lookup`, the `TarHeader` layout
* `src/kernel/src/entry.rs`     — `handle_syscall` (READFILE / WRITEFILE / EXIT)
* `src/kernel/src/allocator.rs` — `BumpAllocator::alloc`
* `src/kernel/src/scheduler.rs` — `yield_now` (next-process selection)
* `src/kernel/src/process.rs`   — `create_process`, `user_entry`
* `src/kernel/src/virtio.rs`    — `read_write_disk`

Bytes are modelled as `Nat` (values < 256 where it matters), byte buffers as
`List Nat`, and the staged disk image as a total function `Nat → Nat` from byte
offset to byte value.  Fallible code (Rust `panic!`, `expect`, out-of-bounds
slice indexing) is modelled with `Except Panic`.
-/

namespace OS1K

/-- Rust panics (`panic!`, `expect`, `assert!`, slice-index out of range)
reachable in the embedded code paths. -/
inductive Panic where
  /-- A slice-indexing expression `x[a..b]` with `b > x.len()`. -/
  | sliceOob
  /-- `fs_init`: tar magic is not the C string `"ustar\0"`. -/
  | badMagic
  /-- `fs_init`: `oct2int` failed on the size field (`expect`). -/
  | badSize
  /-- `str::from_utf8(..).expect(..)` failed. -/
  | badUtf8
  /-- `fs_init`: `assert!(disk.len() >= off + size_of::<TarHeader>())` failed. -/
  | assertFail
  deriving DecidableEq, Repr

/-- `align_up` from `src/kernel/src/address.rs`:
`(value + (align - 1)) & !(align - 1)`.
For a power-of-two `align` (the only alignments the kernel uses: 512 and 4096)
clearing the low bits of `x` is exactly `x - x % align`, which is how the mask
is rendered here over `Nat`. -/
def alignUp (value align : Nat) : Nat :=
  value + (align - 1) - (value + (align - 1)) % align

theorem le_alignUp (value : Nat) {align : Nat} (h : 0 < align) :
    value ≤ alignUp value align := by
  have hm : (value + (align - 1)) % align < align := Nat.mod_lt _ h
  unfold alignUp
  omega

theorem alignUp_lt (value : Nat) {align : Nat} (h : 0 < align) :
    alignUp value align < value + align := by
  unfold alignUp
  omega

theorem dvd_alignUp (value align : Nat) : align ∣ alignUp value align := by
  refine ⟨(value + (align - 1)) / align, ?_⟩
  have := Nat.div_add_mod (value + (align - 1)) align
  unfold alignUp
  omega

theorem alignUp_le {value align m : Nat} (hd : align ∣ m) (h : 0 < align)
    (hv : value ≤ m) : alignUp value align ≤ m := by
  obtain ⟨q, rfl⟩ := hd
  have hdm := Nat.div_add_mod (value + (align - 1)) align
  set d := (value + (align - 1)) / align with hdint
  have hle : d ≤ q := by
    by_contra hlt
    push_neg at hlt
    have : align * (q + 1) ≤ align * d := Nat.mul_le_mul_left _ hlt
    have hm : (value + (align - 1)) % align < align := Nat.mod_lt _ h
    rw [Nat.mul_succ] at this
    omega
  have : align * d ≤ align * q := Nat.mul_le_mul_left _ hle
  have hm : (value + (align - 1)) % align < align := Nat.mod_lt _ h
  unfold alignUp
  omega

theorem alignUp_mono {v w : Nat} (align : Nat) (h : v ≤ w) :
    alignUp v align ≤ alignUp w align := by
  rcases Nat.eq_zero_or_pos align with rfl | hpos
  · simp [alignUp]
  · exact alignUp_le (dvd_alignUp w align) hpos (le_trans h (le_alignUp w hpos))

/-! ### Octal encode / decode (`src/kernel/src/tar.rs`) -/

/-- `oct2int` from `src/kernel/src/tar.rs`: take bytes up to the first NUL and
`try_fold` them as octal digits, failing on any byte outside `b'0'..=b'7'`. -/
def oct2int (oct : List Nat) : Except Unit Nat :=
  (oct.takeWhile (fun b => b != 0)).foldlM
    (fun dec b => if 48 ≤ b ∧ b ≤ 55 then Except.ok (dec * 8 + (b - 48)) else Except.error ())
    0

/-- The sequence of digit bytes produced by the write loop in `int2oct`,
least-significant first: the loop walks the buffer in reverse (skipping the
final NUL), storing `num % 8 + b'0'` and dividing `num` by 8 at each step. -/
def octDigits : Nat → Nat → List Nat
  | _, 0 => []
  | num, k + 1 => (num % 8 + 48) :: octDigits (num / 8) k

/-- `int2oct` from `src/kernel/src/tar.rs`, as the final contents of the
`len`-byte buffer: every byte except the last receives an octal digit (the
initial space fill is completely overwritten), the last byte is the NUL
terminator. -/
def int2oct (dec len : Nat) : List Nat :=
  if len = 0 then [] else (octDigits dec (len - 1)).reverse ++ [0]

theorem octDigits_length (num k : Nat) : (octDigits num k).length = k := by
  induction k generalizing num with
  | zero => rfl
  | succ k ih => simp [octDigits, ih]

theorem octDigits_mem {num k b : Nat} (hb : b ∈ octDigits num k) :
    48 ≤ b ∧ b ≤ 55 := by
  induction k generalizing num with
  | zero => simp [octDigits] at hb
  | succ k ih =>
    simp only [octDigits, List.mem_cons] at hb
    rcases hb with rfl | hb
    · have : num % 8 < 8 := Nat.mod_lt _ (by omega)
      omega
    · exact ih hb

theorem int2oct_length (dec len : Nat) : (int2oct dec len).length = len := by
  unfold int2oct
  split
  · simp [*]
  · rw [List.length_append, List.length_reverse, octDigits_length]
    simp
    omega

theorem takeWhile_ne_zero_append {l : List Nat} (h : ∀ b ∈ l, b ≠ 0) :
    (l ++ [0]).takeWhile (fun b => b != 0) = l := by
  induction l with
  | nil => simp [List.takeWhile]
  | cons a t ih =>
    have ha : a ≠ 0 := h a (by simp)
    have ht := ih (fun b hb => h b (by simp [hb]))
    have hb : (a != 0) = true := by simpa using ha
    simp [List.takeWhile, hb, ht]

theorem foldlM_oct_ok : ∀ (l : List Nat) (acc : Nat), (∀ b ∈ l, 48 ≤ b ∧ b ≤ 55) →
    (l.foldlM
      (fun dec b =>
        if 48 ≤ b ∧ b ≤ 55 then Except.ok (dec * 8 + (b - 48)) else Except.error ())
      acc : Except Unit Nat)
    = Except.ok (l.foldl (fun dec b => dec * 8 + (b - 48)) acc) := by
  intro l
  induction l with
  | nil => intro acc _; rfl
  | cons a t ih =>
    intro acc h
    have ha : 48 ≤ a ∧ a ≤ 55 := h a (by simp)
    have ht : ∀ b ∈ t, 48 ≤ b ∧ b ≤ 55 := fun b hb => h b (by simp [hb])
    simp only [List.foldlM, List.foldl, if_pos ha]
    rw [show ((Except.ok (acc * 8 + (a - 48)) : Except Unit Nat) >>= fun x =>
        t.foldlM (fun dec b =>
          if 48 ≤ b ∧ b ≤ 55 then Except.ok (dec * 8 + (b - 48)) else Except.error ()) x)
      = t.foldlM (fun dec b =>
          if 48 ≤ b ∧ b ≤ 55 then Except.ok (dec * 8 + (b - 48)) else Except.error ())
          (acc * 8 + (a - 48)) from rfl]
    exact ih _ ht

theorem foldl_octDigits (k : Nat) : ∀ num acc : Nat,
    (octDigits num k).reverse.foldl (fun dec b => dec * 8 + (b - 48)) acc
    = acc * 8 ^ k + num % 8 ^ k := by
  induction k with
  | zero => intro num acc; simp [octDigits, Nat.mod_one]
  | succ k ih =>
    intro num acc
    have hd : num % 8 < 8 := Nat.mod_lt _ (by omega)
    rw [octDigits, List.reverse_cons, List.foldl_append, ih (num / 8) acc]
    have hmod : num % 8 ^ (k + 1) = 8 * (num / 8 % 8 ^ k) + num % 8 := by
      rw [pow_succ', Nat.mod_mul]
      omega
    simp only [List.foldl]
    rw [hmod, pow_succ]
    have hb : num % 8 + 48 - 48 = num % 8 := by omega
    rw [hb]
    ring

/-- General round trip: decoding an encoded value recovers it modulo `8^(len-1)`. -/
theorem oct2int_int2oct {len : Nat} (hlen : 0 < len) (n : Nat) :
    oct2int (int2oct n len) = Except.ok (n % 8 ^ (len - 1)) := by
  unfold oct2int int2oct
  rw [if_neg (by omega)]
  rw [takeWhile_ne_zero_append (fun b hb => by
    have := octDigits_mem (List.mem_reverse.mp hb)
    omega)]
  rw [foldlM_oct_ok _ _ (fun b hb => octDigits_mem (List.mem_reverse.mp hb))]
  rw [foldl_octDigits]
  simp

/-- **C8.** For every `n < 8^11`, encoding `n` with `int2oct` into a 12-byte
buffer (the tar size field) and decoding the result with `oct2int` yields
`Ok(n)`. -/
theorem C8_oct_roundtrip (n : Nat) (h : n < 8 ^ 11) :
    oct2int (int2oct n 12) = Except.ok n := by
  rw [oct2int_int2oct (by omega) n]
  norm_num
  omega

/-- Witness for C8 at `n = 1024`. -/
theorem C8_oct_roundtrip_witness :
    1024 < 8 ^ 11 ∧ oct2int (int2oct 1024 12) = Except.ok 1024 :=
  ⟨by norm_num, C8_oct_roundtrip 1024 (by norm_num)⟩

/-! ### The tar file store (`src/kernel/src/tar.rs`) -/

/-- `SECTOR_SIZE` from `src/kernel/src/virtio.rs`. -/
def SECTOR_SIZE : Nat := 512

/-- `FILES_MAX` from `src/kernel/src/tar.rs`. -/
def FILES_MAX : Nat := 2

/-- `size_of::<File>()` on rv32: `usize` (4, align 4) + `bool` (1) +
`name: [u8; 100]` + `data: [u8; 1024]` = 1129 bytes, padded to the 4-byte
alignment of the struct: 1132. -/
def sizeOfFile : Nat := 1132

/-- `size_of::<TarHeader>()`: the packed ustar header is 512 bytes. -/
def TAR_HEADER_SIZE : Nat := 512

/-- `DISK_MAX_SIZE = align_up(size_of::<File>() * FILES_MAX, SECTOR_SIZE)`. -/
def DISK_MAX_SIZE : Nat := alignUp (sizeOfFile * FILES_MAX) SECTOR_SIZE

theorem DISK_MAX_SIZE_eq : DISK_MAX_SIZE = 2560 := by decide

/-- The `File` record from `src/kernel/src/tar.rs` (`in_use`, `name: [u8;100]`,
`data: [u8;1024]`, `size`).  Well-formedness (`name.length = 100`,
`data.length = 1024`) is carried as hypotheses where needed. -/
structure FileRec where
  in_use : Bool
  name : List Nat
  data : List Nat
  size : Nat
  deriving DecidableEq, Repr

/-- `"00000644"` — the `mode` field written by `fs_flush`. -/
def modeBytes : List Nat := [48, 48, 48, 48, 48, 54, 52, 52]

/-- `"ustar\0"` — the `magic` field. -/
def ustarMagic : List Nat := [117, 115, 116, 97, 114, 0]

/-- `"00"` — the `version` field. -/
def versionBytes : List Nat := [48, 48]

/-- The 512-byte ustar header assembled by `fs_flush` for file `f`, with the
8-byte checksum field `cks`; all fields in the declared order of `TarHeader`
(`name`, `mode`, `uid`, `gid`, `size`, `mtime`, `checksum`, `typeflag`,
`linkname`, `magic`, `version`, `uname`, `gname`, `devmajor`, `devminor`,
the 155-byte member before the final padding, `_padding`).  Fields
`fs_flush` leaves untouched are the zero bytes of `TarHeader::zeroed()`. -/
def mkHeaderWith (f : FileRec) (cks : List Nat) : List Nat :=
  f.name ++ modeBytes ++ List.replicate 8 0 ++ List.replicate 8 0 ++
  int2oct f.size 12 ++ List.replicate 12 0 ++ cks ++ [48] ++
  List.replicate 100 0 ++ ustarMagic ++ versionBytes ++
  List.replicate 32 0 ++ List.replicate 32 0 ++ List.replicate 8 0 ++
  List.replicate 8 0 ++ List.replicate 155 0 ++ List.replicate 12 0

/-- The byte-sum fold in `fs_flush`:
`buf.iter().fold(0, |checksum, byte| checksum + *byte as usize)`. -/
def byteSum (l : List Nat) : Nat := l.foldl (fun c b => c + b) 0

/-- The checksum computed by `fs_flush`: the byte sum of the header with the
checksum field filled with ASCII spaces (`b' '` = 32). -/
def headerChecksum (f : FileRec) : Nat :=
  byteSum (mkHeaderWith f (List.replicate 8 32))

/-- The final header `fs_flush` writes to the staging buffer: the checksum
value encoded with `int2oct` into the 8-byte checksum field. -/
def mkHeader (f : FileRec) : List Nat :=
  mkHeaderWith f (int2oct (headerChecksum f) 8)

set_option maxRecDepth 4000 in
theorem mkHeaderWith_length (f : FileRec) (cks : List Nat)
    (hname : f.name.length = 100) (hcks : cks.length = 8) :
    (mkHeaderWith f cks).length = 512 := by
  simp [mkHeaderWith, int2oct_length, hname, hcks, modeBytes, ustarMagic, versionBytes]

theorem mkHeader_length (f : FileRec) (hname : f.name.length = 100) :
    (mkHeader f).length = 512 :=
  mkHeaderWith_length f _ hname (int2oct_length _ 8)

/-! ### The staged disk image

The staging buffer `DISK` is modelled as a total function from byte offset to
byte value; reads and writes carry the slice bounds checks of the source
(`disk[off..off + n]` panics when `off + n > DISK_MAX_SIZE`). -/

/-- `disk[off..off + bs.len()].copy_from_slice(bs)`, pointwise. -/
def diskWrite (d : Nat → Nat) (off : Nat) (bs : List Nat) : Nat → Nat :=
  fun a => if off ≤ a ∧ a < off + bs.length then bs.getD (a - off) 0 else d a

/-- `disk[off..off + bs.len()].copy_from_slice(bs)` with its bounds check. -/
def diskWriteChecked (d : Nat → Nat) (off : Nat) (bs : List Nat) :
    Except Panic (Nat → Nat) :=
  if off + bs.length ≤ DISK_MAX_SIZE then Except.ok (diskWrite d off bs)
  else Except.error Panic.sliceOob

/-- `&disk[off..off + len]`, pointwise. -/
def diskRead (d : Nat → Nat) (off len : Nat) : List Nat :=
  (List.range len).map (fun i => d (off + i))

/-- `&disk[off..off + len]` with its bounds check. -/
def diskReadChecked (d : Nat → Nat) (off len : Nat) :
    Except Panic (List Nat) :=
  if off + len ≤ DISK_MAX_SIZE then Except.ok (diskRead d off len)
  else Except.error Panic.sliceOob

/-- States of the UTF-8 acceptor: how many continuation bytes are still
expected, with the special first-continuation ranges after `E0`/`ED`/`F0`/`F4`
that exclude overlong encodings and surrogates (RFC 3629). -/
inductive Utf8State where
  | start
  | cont1
  | cont2
  | cont3
  | afterE0
  | afterED
  | afterF0
  | afterF4
  deriving DecidableEq, Repr

/-- One step of the UTF-8 acceptor; `none` is a malformed byte. -/
def utf8Step (st : Utf8State) (b : Nat) : Option Utf8State :=
  match st with
  | Utf8State.start =>
    if b < 0x80 then some Utf8State.start
    else if 0xC2 ≤ b ∧ b ≤ 0xDF then some Utf8State.cont1
    else if b = 0xE0 then some Utf8State.afterE0
    else if (0xE1 ≤ b ∧ b ≤ 0xEC) ∨ b = 0xEE ∨ b = 0xEF then some Utf8State.cont2
    else if b = 0xED then some Utf8State.afterED
    else if b = 0xF0 then some Utf8State.afterF0
    else if 0xF1 ≤ b ∧ b ≤ 0xF3 then some Utf8State.cont3
    else if b = 0xF4 then some Utf8State.afterF4
    else none
  | Utf8State.cont1 =>
    if 0x80 ≤ b ∧ b ≤ 0xBF then some Utf8State.start else none
  | Utf8State.cont2 =>
    if 0x80 ≤ b ∧ b ≤ 0xBF then some Utf8State.cont1 else none
  | Utf8State.cont3 =>
    if 0x80 ≤ b ∧ b ≤ 0xBF then some Utf8State.cont2 else none
  | Utf8State.afterE0 =>
    if 0xA0 ≤ b ∧ b ≤ 0xBF then some Utf8State.cont1 else none
  | Utf8State.afterED =>
    if 0x80 ≤ b ∧ b ≤ 0x9F then some Utf8State.cont1 else none
  | Utf8State.afterF0 =>
    if 0x90 ≤ b ∧ b ≤ 0xBF then some Utf8State.cont2 else none
  | Utf8State.afterF4 =>
    if 0x80 ≤ b ∧ b ≤ 0x8F then some Utf8State.cont2 else none

/-- Run the acceptor; a byte sequence is accepted when it ends in `start`. -/
def utf8Run : Utf8State → List Nat → Bool
  | st, [] => st = Utf8State.start
  | st, b :: rest =>
    match utf8Step st b with
    | none => false
    | some st1 => utf8Run st1 rest

/-- UTF-8 validity of a byte sequence — the check done by
`str::from_utf8(..)`. -/
def utf8Valid (l : List Nat) : Bool := utf8Run Utf8State.start l

/-- The per-file loop of `fs_flush`: stop at the first slot that is not
`in_use` (the loop `break`s there); otherwise write the 512-byte header at
`off` and the full 1024-byte `data` array right after it, then advance `off`
by `align_up(512 + file.size, SECTOR_SIZE)`. -/
def fsFlushLoop : List FileRec → (Nat → Nat) → Nat → Except Panic (Nat → Nat)
  | [], d, _ => Except.ok d
  | f :: rest, d, off =>
    if f.in_use then do
      let d1 ← diskWriteChecked d off (mkHeader f)
      let d2 ← diskWriteChecked d1 (off + TAR_HEADER_SIZE) f.data
      fsFlushLoop rest d2 (off + alignUp (TAR_HEADER_SIZE + f.size) SECTOR_SIZE)
    else Except.ok d

/-- `fs_flush`: zero the staging buffer, emit one ustar record per `in_use`
file (stopping at the first non-`in_use` slot), then write the buffer to the
block device sector by sector.  The device transfer is modelled as an identity
copy (every sector in range, status 0), so the persistent image is the staged
buffer itself. -/
def fsFlush (files : List FileRec) : Except Panic (Nat → Nat) :=
  fsFlushLoop files (fun _ => 0) 0

/-- The per-slot loop of `fs_init`.  For each file slot: assert the header
fits the buffer, stop when the record name starts with NUL, check the ustar
magic (any other bytes — wrong magic or no interior NUL structure — panic),
parse the octal size field, copy the payload into `data[..size]`, and require
the name to be valid UTF-8 (the `str::from_utf8(..).expect(..)` in the log
statement).  Slots after the terminator keep their previous contents. -/
def fsInitLoop : List FileRec → (Nat → Nat) → Nat → Except Panic (List FileRec)
  | [], _, _ => Except.ok []
  | f :: rest, d, off =>
    if off + TAR_HEADER_SIZE ≤ DISK_MAX_SIZE then
      if d off = 0 then Except.ok (f :: rest)
      else if diskRead d (off + 257) 6 ≠ ustarMagic then Except.error Panic.badMagic
      else
        match oct2int (diskRead d (off + 124) 12) with
        | Except.error _ => Except.error Panic.badSize
        | Except.ok filesz =>
          if filesz ≤ f.data.length then do
            let payload ← diskReadChecked d (off + TAR_HEADER_SIZE) filesz
            if utf8Valid (diskRead d off 100) then do
              let rest' ← fsInitLoop rest d
                (off + alignUp (TAR_HEADER_SIZE + filesz) SECTOR_SIZE)
              Except.ok ({ in_use := true, name := diskRead d off 100,
                           data := payload ++ f.data.drop filesz,
                           size := filesz } :: rest')
            else Except.error Panic.badUtf8
          else Except.error Panic.sliceOob
    else Except.error Panic.assertFail

/-- `fs_init`: read the backing device into the staging buffer (identity copy,
as in `fsFlush`) and parse the ustar records into the file array. -/
def fsInit (files : List FileRec) (d : Nat → Nat) : Except Panic (List FileRec) :=
  fsInitLoop files d 0

/-- `fs_flush` followed by `fs_init` on the same file array. -/
def fsRoundTrip (files : List FileRec) : Except Panic (List FileRec) := do
  let d ← fsFlush files
  fsInit files d

/-! ### C9: the checksum of every header produced by `fs_flush` -/

theorem int2oct_mem {n len b : Nat} (hb : b ∈ int2oct n len) : b ≤ 55 := by
  unfold int2oct at hb
  split at hb
  · simp at hb
  · rcases List.mem_append.mp hb with h | h
    · exact (octDigits_mem (List.mem_reverse.mp h)).2
    · simp at h
      omega

theorem mem_mkHeaderWith_le {f : FileRec} {cks : List Nat} {b : Nat}
    (hname : ∀ x ∈ f.name, x ≤ 255) (hcks : ∀ x ∈ cks, x ≤ 255)
    (hb : b ∈ mkHeaderWith f cks) : b ≤ 255 := by
  have hrep : ∀ n : Nat, ∀ x ∈ List.replicate n (0 : Nat), x ≤ 255 := by
    intro n x hx
    rw [List.eq_of_mem_replicate hx]
    omega
  have hall : ∀ x ∈ mkHeaderWith f cks, x ≤ 255 := by
    unfold mkHeaderWith
    simp only [List.forall_mem_append]
    have hint : ∀ x ∈ int2oct f.size 12, x ≤ 255 := by
      intro x hx
      exact le_trans (int2oct_mem hx) (by omega)
    exact ⟨⟨⟨⟨⟨⟨⟨⟨⟨⟨⟨⟨⟨⟨⟨⟨hname, by decide⟩, hrep 8⟩, hrep 8⟩, hint⟩, hrep 12⟩, hcks⟩, by decide⟩, hrep 100⟩, by decide⟩, by decide⟩, hrep 32⟩, hrep 32⟩, hrep 8⟩, hrep 8⟩, hrep 155⟩, hrep 12⟩
  exact hall b hb

theorem foldl_add_le (l : List Nat) : ∀ acc : Nat, (∀ b ∈ l, b ≤ 255) →
    l.foldl (fun c b => c + b) acc ≤ acc + 255 * l.length := by
  induction l with
  | nil => intro acc _; simp
  | cons a t ih =>
    intro acc h
    have ha : a ≤ 255 := h a (by simp)
    have := ih (acc + a) (fun b hb => h b (by simp [hb]))
    simp only [List.foldl, List.length_cons]
    omega

theorem byteSum_le {l : List Nat} (h : ∀ b ∈ l, b ≤ 255) :
    byteSum l ≤ 255 * l.length := by
  have := foldl_add_le l 0 h
  simpa [byteSum] using this

theorem headerChecksum_lt (f : FileRec) (hname : f.name.length = 100)
    (hbytes : ∀ b ∈ f.name, b ≤ 255) : headerChecksum f < 8 ^ 7 := by
  have hlen : (mkHeaderWith f (List.replicate 8 32)).length = 512 :=
    mkHeaderWith_length f _ hname (by simp)
  have hb : ∀ b ∈ mkHeaderWith f (List.replicate 8 32), b ≤ 255 := by
    intro b hb
    refine mem_mkHeaderWith_le hbytes ?_ hb
    intro x hx
    have := List.eq_of_mem_replicate hx
    omega
  have := byteSum_le hb
  rw [hlen] at this
  unfold headerChecksum
  omega

set_option maxRecDepth 4000 in
theorem mkHeaderWith_extract_cks (f : FileRec) (cks : List Nat)
    (hname : f.name.length = 100) (hcks : cks.length = 8) :
    ((mkHeaderWith f cks).drop 148).take 8 = cks := by
  have hA : mkHeaderWith f cks
      = (f.name ++ modeBytes ++ List.replicate 8 0 ++ List.replicate 8 0 ++
         int2oct f.size 12 ++ List.replicate 12 0) ++
        (cks ++ ([48] ++ List.replicate 100 0 ++ ustarMagic ++ versionBytes ++
         List.replicate 32 0 ++ List.replicate 32 0 ++ List.replicate 8 0 ++
         List.replicate 8 0 ++ List.replicate 155 0 ++ List.replicate 12 0)) := by
    simp [mkHeaderWith, List.append_assoc]
  have hAlen : (f.name ++ modeBytes ++ List.replicate 8 0 ++ List.replicate 8 0 ++
      int2oct f.size 12 ++ List.replicate 12 0).length = 148 := by
    simp [hname, int2oct_length, modeBytes]
  rw [hA, List.drop_left' hAlen, List.take_left' hcks]

/-- **C9.** Every 512-byte tar header produced by `fs_flush` has a checksum
field that, decoded with `oct2int`, equals the sum of the unsigned byte values
of the entire header computed with the 8-byte checksum field filled with ASCII
spaces. -/
theorem C9_flush_header_checksum (f : FileRec) (hname : f.name.length = 100)
    (hbytes : ∀ b ∈ f.name, b ≤ 255) :
    oct2int (((mkHeader f).drop 148).take 8) = Except.ok (headerChecksum f) := by
  unfold mkHeader
  rw [mkHeaderWith_extract_cks f _ hname (int2oct_length _ 8)]
  rw [oct2int_int2oct (by omega)]
  have := headerChecksum_lt f hname hbytes
  norm_num
  omega

/-- Witness for C9 on a concrete file record. -/
theorem C9_flush_header_checksum_witness :
    (List.replicate 100 (0 : Nat)).length = 100 ∧
    oct2int (((mkHeader ⟨true, List.replicate 100 0, [], 5⟩).drop 148).take 8)
      = Except.ok (headerChecksum ⟨true, List.replicate 100 0, [], 5⟩) :=
  ⟨by simp, C9_flush_header_checksum ⟨true, List.replicate 100 0, [], 5⟩
    (by simp) (fun b hb => by
      have := List.eq_of_mem_replicate hb
      omega)⟩

/-! ### Reading back from the staged disk -/

theorem diskWrite_in {d : Nat → Nat} {off : Nat} {bs : List Nat} {a : Nat}
    (h1 : off ≤ a) (h2 : a < off + bs.length) :
    diskWrite d off bs a = bs.getD (a - off) 0 := by
  simp only [diskWrite]
  rw [if_pos ⟨h1, h2⟩]

theorem diskWrite_out {d : Nat → Nat} {off : Nat} {bs : List Nat} {a : Nat}
    (h : a < off ∨ off + bs.length ≤ a) :
    diskWrite d off bs a = d a := by
  simp only [diskWrite]
  rw [if_neg (by omega)]

theorem diskRead_length (d : Nat → Nat) (off len : Nat) :
    (diskRead d off len).length = len := by
  simp [diskRead]

theorem diskRead_getD {d : Nat → Nat} {off len i : Nat} (h : i < len) :
    (diskRead d off len).getD i 0 = d (off + i) := by
  unfold diskRead
  rw [List.getD_eq_getElem _ _ (by simpa using h)]
  simp

theorem diskRead_eq {d : Nat → Nat} {off len : Nat} (bs : List Nat)
    (hlen : bs.length = len) (h : ∀ i, i < len → d (off + i) = bs.getD i 0) :
    diskRead d off len = bs := by
  apply List.ext_getElem
  · simp [diskRead, hlen]
  · intro i h1 h2
    simp only [diskRead, List.getElem_map, List.getElem_range]
    rw [h i (by simpa [diskRead] using h1)]
    exact List.getD_eq_getElem bs 0 h2

/-- Reading a sub-range of a region just written returns that part of the
written bytes. -/
theorem diskRead_write_sub {d : Nat → Nat} {off : Nat} {bs : List Nat}
    {a len : Nat} (h : a + len ≤ bs.length) :
    diskRead (diskWrite d off bs) (off + a) len = (bs.drop a).take len := by
  refine diskRead_eq _ (by simp; omega) ?_
  intro i hi
  rw [diskWrite_in (by omega) (by omega)]
  have hidx : off + a + i - off = a + i := by omega
  rw [hidx]
  have h1 : a + i < bs.length := by omega
  rw [List.getD_eq_getElem _ _ (by simpa using h1)]
  rw [List.getD_eq_getElem _ _ (by simp; omega)]
  simp [List.getElem_take, List.getElem_drop]

/-- Reading the first `len` bytes of a region just written. -/
theorem diskRead_write_start {d : Nat → Nat} {off : Nat} {bs : List Nat}
    {len : Nat} (h : len ≤ bs.length) :
    diskRead (diskWrite d off bs) off len = bs.take len := by
  have := @diskRead_write_sub d off bs 0 len (by omega)
  simpa using this

/-- A read from a range disjoint from a write sees through the write. -/
theorem diskRead_write_out {d : Nat → Nat} {woff : Nat} {bs : List Nat}
    {off len : Nat} (h : off + len ≤ woff ∨ woff + bs.length ≤ off) :
    diskRead (diskWrite d woff bs) off len = diskRead d off len := by
  unfold diskRead
  apply List.map_congr_left
  intro i hi
  simp only [List.mem_range] at hi
  exact diskWrite_out (by omega)

/-! ### Field extraction from a built header -/

set_option maxRecDepth 4000 in
theorem mkHeaderWith_assoc (f : FileRec) (cks : List Nat) :
    mkHeaderWith f cks
      = f.name ++ (modeBytes ++ (List.replicate 8 0 ++ (List.replicate 8 0 ++
        (int2oct f.size 12 ++ (List.replicate 12 0 ++ (cks ++ ([48] ++
        (List.replicate 100 0 ++ (ustarMagic ++ (versionBytes ++
        (List.replicate 32 0 ++ (List.replicate 32 0 ++ (List.replicate 8 0 ++
        (List.replicate 8 0 ++ (List.replicate 155 0 ++
        List.replicate 12 0))))))))))))))) := by
  simp [mkHeaderWith, List.append_assoc]

theorem mkHeaderWith_take_name (f : FileRec) (cks : List Nat)
    (hname : f.name.length = 100) :
    (mkHeaderWith f cks).take 100 = f.name := by
  rw [mkHeaderWith_assoc, List.take_left' hname]

set_option maxRecDepth 4000 in
theorem mkHeaderWith_extract_size (f : FileRec) (cks : List Nat)
    (hname : f.name.length = 100) :
    ((mkHeaderWith f cks).drop 124).take 12 = int2oct f.size 12 := by
  have hA : mkHeaderWith f cks
      = (f.name ++ modeBytes ++ List.replicate 8 0 ++ List.replicate 8 0) ++
        (int2oct f.size 12 ++ (List.replicate 12 0 ++ (cks ++ ([48] ++
        (List.replicate 100 0 ++ (ustarMagic ++ (versionBytes ++
        (List.replicate 32 0 ++ (List.replicate 32 0 ++ (List.replicate 8 0 ++
        (List.replicate 8 0 ++ (List.replicate 155 0 ++
        List.replicate 12 0)))))))))))) := by
    simp [mkHeaderWith, List.append_assoc]
  have hAlen : (f.name ++ modeBytes ++ List.replicate 8 0 ++
      List.replicate 8 0).length = 124 := by
    simp [hname, modeBytes]
  rw [hA, List.drop_left' hAlen, List.take_left' (int2oct_length _ 12)]

set_option maxRecDepth 4000 in
theorem mkHeaderWith_extract_magic (f : FileRec) (cks : List Nat)
    (hname : f.name.length = 100) (hcks : cks.length = 8) :
    ((mkHeaderWith f cks).drop 257).take 6 = ustarMagic := by
  have hA : mkHeaderWith f cks
      = (f.name ++ modeBytes ++ List.replicate 8 0 ++ List.replicate 8 0 ++
         int2oct f.size 12 ++ List.replicate 12 0 ++ cks ++ [48] ++
         List.replicate 100 0) ++
        (ustarMagic ++ (versionBytes ++ (List.replicate 32 0 ++
        (List.replicate 32 0 ++ (List.replicate 8 0 ++ (List.replicate 8 0 ++
        (List.replicate 155 0 ++ List.replicate 12 0))))))) := by
    simp [mkHeaderWith, List.append_assoc]
  have hAlen : (f.name ++ modeBytes ++ List.replicate 8 0 ++ List.replicate 8 0 ++
      int2oct f.size 12 ++ List.replicate 12 0 ++ cks ++ [48] ++
      List.replicate 100 0).length = 257 := by
    simp [hname, hcks, int2oct_length, modeBytes]
  rw [hA, List.drop_left' hAlen, List.take_left' (by decide)]

/-! ### Unfolding lemmas for the flush / init loops -/

theorem except_bind_ok {α β : Type} (a : α) (g : α → Except Panic β) :
    (Except.ok a >>= g) = g a := rfl

theorem except_map_ok {α β : Type} (g : α → β) (a : α) :
    (Except.ok a : Except Panic α).map g = Except.ok (g a) := rfl

theorem except_map_error {α β : Type} (g : α → β) (e : Panic) :
    (Except.error e : Except Panic α).map g = Except.error e := rfl

theorem getD_take_of_lt {l : List Nat} {n i : Nat} (h : i < n) :
    (l.take n).getD i 0 = l.getD i 0 := by
  rcases Nat.lt_or_ge i l.length with hl | hl
  · rw [List.getD_eq_getElem _ _ (by simp; omega), List.getD_eq_getElem _ _ hl]
    simp [List.getElem_take]
  · rw [List.getD_eq_default _ _ (by simp; omega), List.getD_eq_default _ _ hl]

theorem fsFlushLoop_stop (f : FileRec) (rest : List FileRec) (d : Nat → Nat)
    (off : Nat) (h : f.in_use = false) :
    fsFlushLoop (f :: rest) d off = Except.ok d := by
  simp [fsFlushLoop, h]

theorem fsFlushLoop_step (f : FileRec) (rest : List FileRec) (d : Nat → Nat)
    (off : Nat) (h : f.in_use = true)
    (hb1 : off + (mkHeader f).length ≤ DISK_MAX_SIZE)
    (hb2 : off + TAR_HEADER_SIZE + f.data.length ≤ DISK_MAX_SIZE) :
    fsFlushLoop (f :: rest) d off
      = fsFlushLoop rest
          (diskWrite (diskWrite d off (mkHeader f)) (off + TAR_HEADER_SIZE) f.data)
          (off + alignUp (TAR_HEADER_SIZE + f.size) SECTOR_SIZE) := by
  simp [fsFlushLoop, h, diskWriteChecked, hb1, hb2]
  rfl

set_option maxRecDepth 8000 in
theorem fsInitLoop_break (f : FileRec) (rest : List FileRec) (d : Nat → Nat)
    (off : Nat) (hoff : off + TAR_HEADER_SIZE ≤ DISK_MAX_SIZE) (h0 : d off = 0) :
    fsInitLoop (f :: rest) d off = Except.ok (f :: rest) := by
  simp only [fsInitLoop]
  rw [if_pos hoff, if_pos h0]

set_option maxRecDepth 8000 in
theorem fsInitLoop_parse (f : FileRec) (rest : List FileRec) (d : Nat → Nat)
    (off : Nat)
    (hoff : off + TAR_HEADER_SIZE ≤ DISK_MAX_SIZE)
    (hoffd : off + TAR_HEADER_SIZE + f.size ≤ DISK_MAX_SIZE)
    (hinuse : f.in_use = true)
    (hname : f.name.length = 100) (hdata : f.data.length = 1024)
    (hsize : f.size ≤ 1024)
    (hutf : utf8Valid f.name = true)
    (hn0 : d off ≠ 0)
    (hr_name : diskRead d off 100 = f.name)
    (hr_magic : diskRead d (off + 257) 6 = ustarMagic)
    (hr_size : diskRead d (off + 124) 12 = int2oct f.size 12)
    (hr_data : diskRead d (off + TAR_HEADER_SIZE) f.size = f.data.take f.size) :
    fsInitLoop (f :: rest) d off
      = (fsInitLoop rest d (off + alignUp (TAR_HEADER_SIZE + f.size) SECTOR_SIZE)).map
          (fun r => f :: r) := by
  have hoct : oct2int (diskRead d (off + 124) 12) = Except.ok f.size := by
    rw [hr_size, oct2int_int2oct (by omega)]
    norm_num
    exact lt_of_le_of_lt hsize (by norm_num)
  have hfits : f.size ≤ f.data.length := by omega
  have hfile : ({ in_use := true, name := f.name, data := f.data, size := f.size }
      : FileRec) = f := by
    cases f with
    | mk u n dt sz => simp_all
  simp only [fsInitLoop]
  rw [if_pos hoff, if_neg hn0, if_neg (by rw [hr_magic]; simp), hoct]
  simp only [hfits, if_true]
  simp only [diskReadChecked, if_pos hoffd, except_bind_ok, hr_data, hr_name, hutf,
    if_true]
  rw [List.take_append_drop]
  rw [hfile]
  cases fsInitLoop rest d (off + alignUp (TAR_HEADER_SIZE + f.size) SECTOR_SIZE) with
  | ok r => rw [except_map_ok, except_bind_ok]
  | error e => rw [except_map_error]; rfl

/-- The four field reads of `fs_init` over a freshly written record
(header at `off`, full data array at `off + 512`). -/
theorem record_reads (f : FileRec) (d0 : Nat → Nat) (off : Nat)
    (hname : f.name.length = 100) (hdata : f.data.length = 1024)
    (hsize : f.size ≤ 1024) :
    diskRead (diskWrite (diskWrite d0 off (mkHeader f))
        (off + TAR_HEADER_SIZE) f.data) off 100 = f.name ∧
    diskRead (diskWrite (diskWrite d0 off (mkHeader f))
        (off + TAR_HEADER_SIZE) f.data) (off + 257) 6 = ustarMagic ∧
    diskRead (diskWrite (diskWrite d0 off (mkHeader f))
        (off + TAR_HEADER_SIZE) f.data) (off + 124) 12 = int2oct f.size 12 ∧
    diskRead (diskWrite (diskWrite d0 off (mkHeader f))
        (off + TAR_HEADER_SIZE) f.data) (off + TAR_HEADER_SIZE) f.size
      = f.data.take f.size := by
  have hH : (mkHeader f).length = 512 := mkHeader_length f hname
  have hTH : TAR_HEADER_SIZE = 512 := rfl
  refine ⟨?_, ?_, ?_, ?_⟩
  · rw [diskRead_write_out (by omega), diskRead_write_start (by omega)]
    unfold mkHeader
    exact mkHeaderWith_take_name f _ hname
  · rw [diskRead_write_out (by omega), diskRead_write_sub (by omega)]
    unfold mkHeader
    exact mkHeaderWith_extract_magic f _ hname (int2oct_length _ 8)
  · rw [diskRead_write_out (by omega), diskRead_write_sub (by omega)]
    unfold mkHeader
    exact mkHeaderWith_extract_size f _ hname
  · rw [diskRead_write_start (by omega)]

theorem fsFlushLoop_nil (d : Nat → Nat) (off : Nat) :
    fsFlushLoop [] d off = Except.ok d := rfl

theorem fsInitLoop_nil (d : Nat → Nat) (off : Nat) :
    fsInitLoop [] d off = Except.ok [] := rfl

theorem mkHeader_getD_zero (f : FileRec) (hname : f.name.length = 100) :
    (mkHeader f).getD 0 0 = f.name.getD 0 0 := by
  have h := mkHeaderWith_take_name f (int2oct (headerChecksum f) 8) hname
  rw [← @getD_take_of_lt (mkHeader f) 100 0 (by omega)]
  unfold mkHeader
  rw [h]

/-- **C3 (amended).** For every pair of file slots in which each `in_use` file
is well-formed and has `size ≤ 1024`, its 100-byte name is valid UTF-8, the
data bytes at index `≥ size` are zero whenever the second slot is unused, and
`size ≤ 512` for the first file whenever both slots are `in_use`, running
`fs_flush` and then `fs_init` leaves the in-memory file table exactly
unchanged — in particular each `in_use` file keeps its `name`, `size` and
`data[..size]`, and each slot that was not `in_use` stays not `in_use`. -/
theorem C3_flush_init_roundtrip (f0 f1 : FileRec)
    (h0n : f0.name.length = 100) (h1n : f1.name.length = 100)
    (h0d : f0.data.length = 1024) (h1d : f1.data.length = 1024)
    (h0s : f0.in_use = true → f0.size ≤ 1024)
    (h1s : f1.in_use = true → f1.size ≤ 1024)
    (h0u : f0.in_use = true → utf8Valid f0.name = true)
    (h1u : f1.in_use = true → utf8Valid f1.name = true)
    (h0z : f0.in_use = true → f1.in_use = false →
      ∀ i, f0.size ≤ i → f0.data.getD i 0 = 0)
    (hboth : f0.in_use = true → f1.in_use = true → f0.size ≤ 512) :
    fsRoundTrip [f0, f1] = Except.ok [f0, f1] := by
  have hTH : TAR_HEADER_SIZE = 512 := rfl
  have hSS : SECTOR_SIZE = 512 := rfl
  have hDM : DISK_MAX_SIZE = 2560 := DISK_MAX_SIZE_eq
  unfold fsRoundTrip fsFlush fsInit
  cases hu0 : f0.in_use with
  | false =>
    rw [fsFlushLoop_stop f0 [f1] _ 0 hu0, except_bind_ok]
    exact fsInitLoop_break f0 [f1] (fun _ => 0) 0 (by omega) rfl
  | true =>
    have hs0 : f0.size ≤ 1024 := h0s hu0
    have hH0 : (mkHeader f0).length = 512 := mkHeader_length f0 h0n
    have ho1a : TAR_HEADER_SIZE + f0.size
        ≤ alignUp (TAR_HEADER_SIZE + f0.size) SECTOR_SIZE :=
      le_alignUp _ (by omega)
    have ho1b : alignUp (TAR_HEADER_SIZE + f0.size) SECTOR_SIZE ≤ 1536 :=
      alignUp_le ⟨3, by omega⟩ (by omega) (by omega)
    rw [fsFlushLoop_step f0 [f1] _ 0 hu0 (by omega) (by omega)]
    have hreads0 := record_reads f0 (fun _ => 0) 0 h0n h0d hs0
    cases hu1 : f1.in_use with
    | false =>
      rw [fsFlushLoop_stop f1 [] _ _ hu1, except_bind_ok]
      by_cases hb0 :
          diskWrite (diskWrite (fun _ => 0) 0 (mkHeader f0))
            (0 + TAR_HEADER_SIZE) f0.data 0 = 0
      · exact fsInitLoop_break f0 [f1] _ 0 (by omega) hb0
      · rw [fsInitLoop_parse f0 [f1] _ 0 (by omega) (by omega) hu0 h0n h0d hs0
          (h0u hu0) hb0 hreads0.1 hreads0.2.1 hreads0.2.2.1 hreads0.2.2.2]
        have hb1 :
            diskWrite (diskWrite (fun _ => 0) 0 (mkHeader f0))
              (0 + TAR_HEADER_SIZE) f0.data
              (0 + alignUp (TAR_HEADER_SIZE + f0.size) SECTOR_SIZE) = 0 := by
          by_cases ho :
              0 + alignUp (TAR_HEADER_SIZE + f0.size) SECTOR_SIZE
                < 0 + TAR_HEADER_SIZE + f0.data.length
          · rw [diskWrite_in (by omega) (by omega)]
            have := h0z hu0 hu1
              (0 + alignUp (TAR_HEADER_SIZE + f0.size) SECTOR_SIZE
                - (0 + TAR_HEADER_SIZE)) (by omega)
            exact this
          · rw [diskWrite_out (by omega), diskWrite_out (by omega)]
        rw [fsInitLoop_break f1 [] _ _ (by omega) hb1]
        rfl
    | true =>
      have hs1 : f1.size ≤ 1024 := h1s hu1
      have hb512 : f0.size ≤ 512 := hboth hu0 hu1
      have hH1 : (mkHeader f1).length = 512 := mkHeader_length f1 h1n
      have ho1c : alignUp (TAR_HEADER_SIZE + f0.size) SECTOR_SIZE ≤ 1024 :=
        alignUp_le ⟨2, by omega⟩ (by omega) (by omega)
      rw [fsFlushLoop_step f1 [] _ _ hu1 (by omega) (by omega),
        fsFlushLoop_nil, except_bind_ok]
      -- reads of the first record see through the second record writes
      have hp_name :
          diskRead (diskWrite (diskWrite
              (diskWrite (diskWrite (fun _ => 0) 0 (mkHeader f0))
                (0 + TAR_HEADER_SIZE) f0.data)
              (0 + alignUp (TAR_HEADER_SIZE + f0.size) SECTOR_SIZE) (mkHeader f1))
              (0 + alignUp (TAR_HEADER_SIZE + f0.size) SECTOR_SIZE
                + TAR_HEADER_SIZE) f1.data) 0 100 = f0.name := by
        rw [diskRead_write_out (by omega), diskRead_write_out (by omega)]
        exact hreads0.1
      have hp_magic :
          diskRead (diskWrite (diskWrite
              (diskWrite (diskWrite (fun _ => 0) 0 (mkHeader f0))
                (0 + TAR_HEADER_SIZE) f0.data)
              (0 + alignUp (TAR_HEADER_SIZE + f0.size) SECTOR_SIZE) (mkHeader f1))
              (0 + alignUp (TAR_HEADER_SIZE + f0.size) SECTOR_SIZE
                + TAR_HEADER_SIZE) f1.data) (0 + 257) 6 = ustarMagic := by
        rw [diskRead_write_out (by omega), diskRead_write_out (by omega)]
        exact hreads0.2.1
      have hp_size :
          diskRead (diskWrite (diskWrite
              (diskWrite (diskWrite (fun _ => 0) 0 (mkHeader f0))
                (0 + TAR_HEADER_SIZE) f0.data)
              (0 + alignUp (TAR_HEADER_SIZE + f0.size) SECTOR_SIZE) (mkHeader f1))
              (0 + alignUp (TAR_HEADER_SIZE + f0.size) SECTOR_SIZE
                + TAR_HEADER_SIZE) f1.data) (0 + 124) 12
            = int2oct f0.size 12 := by
        rw [diskRead_write_out (by omega), diskRead_write_out (by omega)]
        exact hreads0.2.2.1
      have hp_data :
          diskRead (diskWrite (diskWrite
              (diskWrite (diskWrite (fun _ => 0) 0 (mkHeader f0))
                (0 + TAR_HEADER_SIZE) f0.data)
              (0 + alignUp (TAR_HEADER_SIZE + f0.size) SECTOR_SIZE) (mkHeader f1))
              (0 + alignUp (TAR_HEADER_SIZE + f0.size) SECTOR_SIZE
                + TAR_HEADER_SIZE) f1.data) (0 + TAR_HEADER_SIZE) f0.size
            = f0.data.take f0.size := by
        rw [diskRead_write_out (by omega), diskRead_write_out (by omega)]
        exact hreads0.2.2.2
      have hreads1 := record_reads f1
        (diskWrite (diskWrite (fun _ => 0) 0 (mkHeader f0))
          (0 + TAR_HEADER_SIZE) f0.data)
        (0 + alignUp (TAR_HEADER_SIZE + f0.size) SECTOR_SIZE) h1n h1d hs1
      by_cases hb0 :
          diskWrite (diskWrite
            (diskWrite (diskWrite (fun _ => 0) 0 (mkHeader f0))
              (0 + TAR_HEADER_SIZE) f0.data)
            (0 + alignUp (TAR_HEADER_SIZE + f0.size) SECTOR_SIZE) (mkHeader f1))
            (0 + alignUp (TAR_HEADER_SIZE + f0.size) SECTOR_SIZE
              + TAR_HEADER_SIZE) f1.data 0 = 0
      · exact fsInitLoop_break f0 [f1] _ 0 (by omega) hb0
      · rw [fsInitLoop_parse f0 [f1] _ 0 (by omega) (by omega) hu0 h0n h0d hs0
          (h0u hu0) hb0 hp_name hp_magic hp_size hp_data]
        by_cases hb1 :
            diskWrite (diskWrite
              (diskWrite (diskWrite (fun _ => 0) 0 (mkHeader f0))
                (0 + TAR_HEADER_SIZE) f0.data)
              (0 + alignUp (TAR_HEADER_SIZE + f0.size) SECTOR_SIZE) (mkHeader f1))
              (0 + alignUp (TAR_HEADER_SIZE + f0.size) SECTOR_SIZE
                + TAR_HEADER_SIZE) f1.data
              (0 + alignUp (TAR_HEADER_SIZE + f0.size) SECTOR_SIZE) = 0
        · rw [fsInitLoop_break f1 [] _ _ (by omega) hb1]
          rfl
        · rw [fsInitLoop_parse f1 [] _ _ (by omega) (by omega) hu1 h1n h1d hs1
            (h1u hu1) hb1 hreads1.1 hreads1.2.1 hreads1.2.2.1 hreads1.2.2.2]
          rw [fsInitLoop_nil]
          rfl

theorem getD_replicate_zero (n i : Nat) :
    (List.replicate n (0 : Nat)).getD i 0 = 0 := by
  rcases Nat.lt_or_ge i n with h | h
  · rw [List.getD_eq_getElem _ _ (by simpa using h)]
    exact List.getElem_replicate _ _
  · rw [List.getD_eq_default _ _ (by simpa using h)]

/-- First slot of the C3 counterexample: an `in_use` file of size 1024. -/
def c3exA : FileRec :=
  { in_use := true, name := 97 :: List.replicate 99 0,
    data := List.replicate 1024 0, size := 1024 }

/-- Second slot of the C3 counterexample: an `in_use` file of size 0. -/
def c3exB : FileRec :=
  { in_use := true, name := 98 :: List.replicate 99 0,
    data := List.replicate 1024 0, size := 0 }

set_option maxRecDepth 200000 in
/-- Counterexample to C3 as stated: both files are `in_use` with
`size ≤ 1024`, yet `fs_flush` already panics (the second record data region
`disk[2048..3072]` overruns the 2560-byte staging buffer), so the
flush-then-init round trip reaches no final state at all, let alone a
projection. -/
theorem C3_counterexample :
    (c3exA.size ≤ 1024 ∧ c3exB.size ≤ 1024) ∧
    fsRoundTrip [c3exA, c3exB] = Except.error Panic.sliceOob :=
  ⟨⟨by norm_num [c3exA], by norm_num [c3exB]⟩, by rfl⟩

set_option maxRecDepth 200000 in
/-- Witness for the amended C3 on concrete file slots. -/
theorem C3_flush_init_roundtrip_witness :
    fsRoundTrip
      [{ in_use := true, name := 97 :: List.replicate 99 0,
         data := List.replicate 1024 0, size := 1 },
       { in_use := false, name := List.replicate 100 0,
         data := List.replicate 1024 0, size := 0 }]
      = Except.ok
      [{ in_use := true, name := 97 :: List.replicate 99 0,
         data := List.replicate 1024 0, size := 1 },
       { in_use := false, name := List.replicate 100 0,
         data := List.replicate 1024 0, size := 0 }] :=
  C3_flush_init_roundtrip _ _
    (by simp) (by simp) (by simp) (by simp)
    (fun _ => by norm_num) (fun h => by simp at h)
    (fun _ => by decide) (fun h => by simp at h)
    (fun _ _ => fun i _ => getD_replicate_zero 1024 i)
    (fun _ h => by simp at h)

/-! ### READFILE / WRITEFILE in `handle_syscall` (`src/kernel/src/entry.rs`) -/

/-- `usize::MAX` on rv32 — the `~0` / `-1` return value for a missing file. -/
def USIZE_MAX : Nat := 2 ^ 32 - 1

/-- The default `File` used for (never out-of-range) list indexing. -/
def emptyFile : FileRec := { in_use := false, name := [], data := [], size := 0 }

/-- `CStr::from_bytes_until_nul`: the bytes strictly before the first NUL,
or `none` when the slice contains no NUL at all. -/
def bytesUntilNul : List Nat → Option (List Nat)
  | [] => none
  | b :: rest => if b = 0 then some [] else (bytesUntilNul rest).map (fun p => b :: p)

/-- The closure of `Files::fs_lookup`: the file matches when its name up to
the first NUL is valid UTF-8 and equals the requested name (string equality of
two valid UTF-8 strings is byte equality). -/
def lookupMatches (f : FileRec) (nameB : List Nat) : Bool :=
  match bytesUntilNul f.name with
  | none => false
  | some p => utf8Valid p && p == nameB

/-- `Files::fs_lookup` (`files.iter().position(..)`). -/
def fsLookup (files : List FileRec) (nameB : List Nat) : Option Nat :=
  files.findIdx? (fun f => lookupMatches f nameB)

/-- Outcome of the READFILE / WRITEFILE arm: the file table, the bytes of the
user buffer at `a2`, and the value stored back into `a0`. -/
structure FsSyscallResult where
  files : List FileRec
  buf : List Nat
  a0 : Nat
  deriving DecidableEq, Repr

/-- The `SYS_READFILE | SYS_WRITEFILE` arm of `handle_syscall`
(`src/kernel/src/entry.rs`).  The user pointers are modelled by the byte
sequences they reference: `nameB` for `(a0, a1)` and `buf` for `(a2)`, with
`a3 = buf.length`.  The filename must be valid UTF-8 (`expect` panics
otherwise); a lookup miss stores `~0` in `a0`; on a hit, WRITEFILE copies the
buffer into `data[..buf_len]`, sets `size = buf_len` and flushes the store,
READFILE overwrites the whole buffer from `data[..buf_len]`; both arms panic
when `buf_len > 1024` (slice `data[..buf_len]` out of range) and otherwise
store `buf_len` in `a0`. -/
def handleFileSyscall (isWrite : Bool) (files : List FileRec)
    (nameB buf : List Nat) : Except Panic FsSyscallResult :=
  if utf8Valid nameB = false then Except.error Panic.badUtf8
  else
    match fsLookup files nameB with
    | none => Except.ok { files := files, buf := buf, a0 := USIZE_MAX }
    | some i =>
      let f := files.getD i emptyFile
      if isWrite then
        if buf.length ≤ f.data.length then do
          let files1 := files.set i
            { f with data := buf ++ f.data.drop buf.length, size := buf.length }
          let _ ← fsFlush files1
          Except.ok { files := files1, buf := buf, a0 := buf.length }
        else Except.error Panic.sliceOob
      else
        if buf.length ≤ f.data.length then
          Except.ok { files := files, buf := f.data.take buf.length,
                      a0 := buf.length }
        else Except.error Panic.sliceOob

/-- **C10.** For every READFILE or WRITEFILE syscall whose filename matches an
in_use file and whose buffer length argument (a3) exceeds 1024,
`handle_syscall` panics (slice-index out of range on the 1024-byte file data
array) instead of returning an error code in a0. -/
theorem C10_oversize_buffer_panics (isWrite : Bool) (files : List FileRec)
    (nameB buf : List Nat) (i : Nat)
    (hutf : utf8Valid nameB = true)
    (hlk : fsLookup files nameB = some i)
    (_hin : (files.getD i emptyFile).in_use = true)
    (hdata : (files.getD i emptyFile).data.length = 1024)
    (hbuf : 1024 < buf.length) :
    handleFileSyscall isWrite files nameB buf = Except.error Panic.sliceOob := by
  unfold handleFileSyscall
  rw [if_neg (by rw [hutf]; simp), hlk]
  cases isWrite <;> simp only [if_true, if_false, Bool.false_eq_true] <;>
    rw [if_neg (by omega)]

set_option maxRecDepth 200000 in
/-- Witness for C10: a concrete 1025-byte READFILE into a one-file store. -/
theorem C10_oversize_buffer_panics_witness :
    handleFileSyscall false
      [{ in_use := true, name := 97 :: List.replicate 99 0,
         data := List.replicate 1024 0, size := 0 }]
      [97] (List.replicate 1025 9) = Except.error Panic.sliceOob :=
  C10_oversize_buffer_panics false _ [97] (List.replicate 1025 9) 0
    (by decide) (by decide) (by decide) (by simp) (by simp)

/-- **C1 (amended).** For every READFILE syscall (sysno 4) whose filename
matches an in_use file and whose buffer length (a3) is at most 1024,
`handle_syscall` copies exactly `buf_len` bytes of the file's 1024-byte data
array into the user buffer at a2 — not `min(buf_len, file.size)` bytes: bytes
of the array beyond `file.size` are copied as well — and stores `buf_len`
(a3) into a0 as the return value. -/
theorem C1_readfile_copies_buflen (files : List FileRec)
    (nameB buf : List Nat) (i : Nat)
    (hutf : utf8Valid nameB = true)
    (hlk : fsLookup files nameB = some i)
    (_hin : (files.getD i emptyFile).in_use = true)
    (hdata : (files.getD i emptyFile).data.length = 1024)
    (hbuf : buf.length ≤ 1024) :
    handleFileSyscall false files nameB buf
      = Except.ok { files := files,
                    buf := (files.getD i emptyFile).data.take buf.length,
                    a0 := buf.length } := by
  unfold handleFileSyscall
  rw [if_neg (by rw [hutf]; simp), hlk]
  simp only [Bool.false_eq_true, if_false]
  rw [if_pos (by omega)]

/-- The one-file store of the C1 counterexample: size 2, data `[7, 7, 0, …]`. -/
def c1exFile : FileRec :=
  { in_use := true, name := 97 :: List.replicate 99 0,
    data := 7 :: 7 :: List.replicate 1022 0, size := 2 }

set_option maxRecDepth 200000 in
/-- Counterexample to C1 as stated: a READFILE of `buf_len = 4` on a file of
size 2 (data `[7, 7, 0, …]`, buffer previously `[9, 9, 9, 9]`).  The claim
predicts that exactly `min(4, 2) = 2` bytes are copied, leaving the buffer
`[7, 7, 9, 9]`; the code copies all 4 bytes, producing `[7, 7, 0, 0]`. -/
theorem C1_counterexample :
    handleFileSyscall false [c1exFile] [97] [9, 9, 9, 9]
        = Except.ok { files := [c1exFile], buf := [7, 7, 0, 0], a0 := 4 } ∧
    handleFileSyscall false [c1exFile] [97] [9, 9, 9, 9]
        ≠ Except.ok { files := [c1exFile],
                      buf := (c1exFile.data.take (min 4 c1exFile.size)
                        ++ ([9, 9, 9, 9] : List Nat).drop (min 4 c1exFile.size)),
                      a0 := 4 } := by
  constructor
  · rfl
  · intro h
    rw [show handleFileSyscall false [c1exFile] [97] [9, 9, 9, 9]
        = Except.ok { files := [c1exFile], buf := [7, 7, 0, 0], a0 := 4 }
        from rfl] at h
    simp only [Except.ok.injEq, FsSyscallResult.mk.injEq] at h
    have hbuf := h.2.1
    rw [show (c1exFile.data.take (min 4 c1exFile.size)
          ++ ([9, 9, 9, 9] : List Nat).drop (min 4 c1exFile.size))
        = [7, 7, 9, 9] from rfl] at hbuf
    simp at hbuf

set_option maxRecDepth 200000 in
/-- Witness for the amended C1: a 3-byte read of the same file copies bytes
`[7, 7, 0]` — including the zero beyond `size = 2` — and returns 3. -/
theorem C1_readfile_copies_buflen_witness :
    handleFileSyscall false [c1exFile] [97] [9, 9, 9]
      = Except.ok { files := [c1exFile],
                    buf := ([c1exFile].getD 0 emptyFile).data.take 3, a0 := 3 } :=
  C1_readfile_copies_buflen [c1exFile] [97] [9, 9, 9] 0
    (by decide) (by decide) (by decide) (by simp [c1exFile]) (by simp)

/-! ### The bump allocator (`src/kernel/src/allocator.rs`) -/

/-- `PAGE_SIZE` from `src/kernel/src/allocator.rs`. -/
def PAGE_SIZE : Nat := 4096

/-- Allocator state: the `next_paddr` cursor (`None` before first use, then
initialised to `__free_ram` by the get-or-insert) and the byte contents of
physical memory. -/
structure AllocState where
  next_paddr : Option Nat
  mem : Nat → Nat

/-- `BumpAllocator::alloc`: take the cursor (initialising it to `__free_ram`
on first use), advance it by `align_up(layout.size(), PAGE_SIZE)`, panic
(`none`) when the new cursor passes `__free_ram_end`, fill the returned region
with the byte `0x55` (`write_bytes(paddr, 0x55, aligned_size)`), and return
the old cursor as the allocation address. -/
def allocAlloc (freeRam freeRamEnd : Nat) (st : AllocState) (layoutSize : Nat) :
    Option (Nat × AllocState) :=
  let paddr := st.next_paddr.getD freeRam
  let alignedSize := alignUp layoutSize PAGE_SIZE
  let newPaddr := paddr + alignedSize
  if freeRamEnd < newPaddr then none
  else some (paddr,
    { next_paddr := some newPaddr,
      mem := fun a =>
        if paddr ≤ a ∧ a < paddr + alignedSize then 0x55 else st.mem a })

/-- A run of the allocator over a list of layout sizes, returning the list of
allocated regions `(address, align_up(size, PAGE_SIZE))` and the final state;
`none` when some allocation runs out of memory. -/
def allocRun (freeRam freeRamEnd : Nat) :
    List Nat → AllocState → Option (List (Nat × Nat) × AllocState)
  | [], st => some ([], st)
  | sz :: rest, st =>
    (allocAlloc freeRam freeRamEnd st sz).bind (fun pst =>
      (allocRun freeRam freeRamEnd rest pst.2).bind (fun rsf =>
        some ((pst.1, alignUp sz PAGE_SIZE) :: rsf.1, rsf.2)))

theorem allocRun_nil (freeRam freeRamEnd : Nat) (st : AllocState) :
    allocRun freeRam freeRamEnd [] st = some ([], st) := rfl

theorem allocRun_cons (freeRam freeRamEnd sz : Nat) (rest : List Nat)
    (st : AllocState) :
    allocRun freeRam freeRamEnd (sz :: rest) st
      = (allocAlloc freeRam freeRamEnd st sz).bind (fun pst =>
          (allocRun freeRam freeRamEnd rest pst.2).bind (fun rsf =>
            some ((pst.1, alignUp sz PAGE_SIZE) :: rsf.1, rsf.2))) := rfl

/-- The regions of a bump-allocator run are laid out end to end starting at
the given cursor. -/
def chainedFrom : Nat → List (Nat × Nat) → Prop
  | _, [] => True
  | c, r :: rest => r.1 = c ∧ chainedFrom (r.1 + r.2) rest

theorem chainedFrom_le :
    ∀ {rs : List (Nat × Nat)} {c : Nat}, chainedFrom c rs → ∀ r ∈ rs, c ≤ r.1 := by
  intro rs
  induction rs with
  | nil => intro c _ r hr; simp at hr
  | cons a t ih =>
    intro c hch r hr
    have h1 : a.1 = c := hch.1
    rcases List.mem_cons.mp hr with rfl | hr
    · omega
    · have := ih hch.2 r hr
      omega

theorem allocRun_spec (freeRam freeRamEnd : Nat) :
    ∀ (sizes : List Nat) (st : AllocState) (regions : List (Nat × Nat))
      (stf : AllocState),
    allocRun freeRam freeRamEnd sizes st = some (regions, stf) →
    chainedFrom (st.next_paddr.getD freeRam) regions ∧
    st.next_paddr.getD freeRam ≤ stf.next_paddr.getD freeRam ∧
    (∀ r ∈ regions, r.1 + r.2 ≤ stf.next_paddr.getD freeRam) ∧
    (∀ a, (∃ r ∈ regions, r.1 ≤ a ∧ a < r.1 + r.2) → stf.mem a = 0x55) ∧
    (∀ a, (∀ r ∈ regions, ¬(r.1 ≤ a ∧ a < r.1 + r.2)) → stf.mem a = st.mem a) := by
  intro sizes
  induction sizes with
  | nil =>
    intro st regions stf h
    rw [allocRun_nil] at h
    simp only [Option.some.injEq, Prod.mk.injEq] at h
    obtain ⟨hreg, hstf⟩ := h
    subst hreg
    subst hstf
    exact ⟨trivial, Nat.le_refl _, by simp, by simp, fun a _ => rfl⟩
  | cons sz rest ih =>
    intro st regions stf h
    rw [allocRun_cons] at h
    cases halloc : allocAlloc freeRam freeRamEnd st sz with
    | none => rw [halloc] at h; simp at h
    | some pst =>
      obtain ⟨p, st1⟩ := pst
      rw [halloc] at h
      simp only [Option.bind] at h
      cases hrun : allocRun freeRam freeRamEnd rest st1 with
      | none => rw [hrun] at h; simp at h
      | some rsf =>
        obtain ⟨rs, stf1⟩ := rsf
        rw [hrun] at h
        simp only [Option.bind, Option.some.injEq, Prod.mk.injEq] at h
        obtain ⟨hreg, hstf⟩ := h
        subst hreg
        subst hstf
        simp only [allocAlloc] at halloc
        split at halloc
        · exact absurd halloc (by simp)
        · rename_i hoom
          simp only [Option.some.injEq, Prod.mk.injEq] at halloc
          obtain ⟨hp, hst1⟩ := halloc
          subst hp
          subst hst1
          obtain ⟨hch, hmono, hend, hfill, hkeep⟩ := ih _ rs stf1 hrun
          simp only [Option.getD_some] at hch hmono
          refine ⟨⟨rfl, hch⟩, by omega, ?_, ?_, ?_⟩
          · intro r hr
            rcases List.mem_cons.mp hr with rfl | hr
            · simpa using hmono
            · exact hend r hr
          · intro a ⟨r, hr, hcov⟩
            rcases List.mem_cons.mp hr with rfl | hr
            · by_cases hc2 : ∃ r2 ∈ rs, r2.1 ≤ a ∧ a < r2.1 + r2.2
              · exact hfill a hc2
              · push_neg at hc2
                rw [hkeep a (fun r2 hr2 => by have := hc2 r2 hr2; omega)]
                simp only
                rw [if_pos (by simpa using hcov)]
            · exact hfill a ⟨r, hr, hcov⟩
          · intro a hnone
            rw [hkeep a (fun r hr => hnone r (List.mem_cons_of_mem _ hr))]
            simp only
            rw [if_neg (by simpa using hnone _ (List.mem_cons_self _ _))]

theorem chainedFrom_disjoint :
    ∀ {rs : List (Nat × Nat)} {c : Nat}, chainedFrom c rs →
    ∀ j k, j < k → k < rs.length →
      (rs.getD j (0, 0)).1 + (rs.getD j (0, 0)).2 ≤ (rs.getD k (0, 0)).1 := by
  intro rs
  induction rs with
  | nil => intro c _ j k _ hk; simp at hk
  | cons a t ih =>
    intro c hch j k hjk hk
    cases j with
    | zero =>
      cases k with
      | zero => omega
      | succ k1 =>
        have hk1 : k1 < t.length := by simpa using hk
        have hmem : t.getD k1 (0, 0) ∈ t := by
          rw [List.getD_eq_getElem _ _ hk1]
          exact List.getElem_mem hk1
        have := chainedFrom_le hch.2 _ hmem
        simpa using this
    | succ j1 =>
      cases k with
      | zero => omega
      | succ k1 =>
        have := ih hch.2 j1 k1 (by omega) (by simpa using hk)
        simpa using this

/-- **C2 (amended).** For every run of the page allocator starting from the
uninitialised cursor, each `alloc(layout)` returns a region of
`align_up(layout.size, 4096)` bytes that is filled with the byte `0x55` (not
zero-filled) before return, is disjoint from every region returned by any
previous `alloc` call, and the allocator cursor is monotonically
non-decreasing across calls (each region ends no later than every later
region starts and than the final cursor). -/
theorem C2_alloc_run_regions (freeRam freeRamEnd : Nat) (sizes : List Nat)
    (st0 : Nat → Nat) (regions : List (Nat × Nat)) (stf : AllocState)
    (h : allocRun freeRam freeRamEnd sizes { next_paddr := none, mem := st0 }
      = some (regions, stf)) :
    (∀ j k, j < k → k < regions.length →
      (regions.getD j (0, 0)).1 + (regions.getD j (0, 0)).2
        ≤ (regions.getD k (0, 0)).1) ∧
    (∀ r ∈ regions, r.1 + r.2 ≤ stf.next_paddr.getD freeRam) ∧
    (∀ r ∈ regions, ∀ a, r.1 ≤ a → a < r.1 + r.2 → stf.mem a = 0x55) := by
  obtain ⟨hch, _, hend, hfill, _⟩ := allocRun_spec freeRam freeRamEnd sizes _ _ _ h
  exact ⟨chainedFrom_disjoint hch, hend,
    fun r hr a h1 h2 => hfill a ⟨r, hr, h1, h2⟩⟩

/-- Counterexample to C2 as stated: the very first allocation fills its frame
with `0x55` (`write_bytes(.., 0x55, ..)`), not with zeroes — here the first
byte of the returned frame reads back as `0x55 = 85 ≠ 0`. -/
theorem C2_counterexample :
    ((allocAlloc 4096 1000000 { next_paddr := none, mem := fun _ => 0 } 1).map
      (fun r => r.2.mem r.1)) = some 0x55 ∧ (0x55 : Nat) ≠ 0 :=
  ⟨rfl, by decide⟩

/-- The allocator state after the concrete two-allocation witness run. -/
def c2stf : AllocState :=
  { next_paddr := some 16384,
    mem := fun a =>
      if 8192 ≤ a ∧ a < 8192 + 8192 then 0x55
      else if 4096 ≤ a ∧ a < 4096 + 4096 then 0x55 else 0 }

/-- Witness for the amended C2 on a run of two allocations (sizes 1 and
5000 from `__free_ram = 4096`). -/
theorem C2_alloc_run_regions_witness :
    ([((4096 : Nat), (4096 : Nat)), (8192, 8192)].getD 0 (0, 0)).1
        + ([((4096 : Nat), (4096 : Nat)), (8192, 8192)].getD 0 (0, 0)).2
      ≤ ([((4096 : Nat), (4096 : Nat)), (8192, 8192)].getD 1 (0, 0)).1 ∧
    c2stf.mem 4100 = 0x55 := by
  obtain ⟨hdis, hend, hfill⟩ := C2_alloc_run_regions 4096 1000000 [1, 5000]
    (fun _ => 0) [(4096, 4096), (8192, 8192)] c2stf (by rfl)
  exact ⟨hdis 0 1 (by omega) (by simp),
    hfill (4096, 4096) (by simp) 4100 (by omega) (by omega)⟩

/-! ### Scheduler (`src/kernel/src/scheduler.rs`, `src/kernel/src/process.rs`) -/

/-- `PROCS_MAX` from `src/kernel/src/process.rs`. -/
def PROCS_MAX : Nat := 8

/-- `State` from `src/kernel/src/process.rs`. -/
inductive PState where
  | Unused
  | Runnable
  | Exited
  deriving DecidableEq, Repr

/-- The scheduler-visible part of a `Process` control block: `pid` and
`state` (the stack, saved `sp` and page table play no role in selection). -/
structure PCB where
  pid : Nat
  state : PState
  deriving DecidableEq, Repr

/-- `Process::empty()`: `pid = 0`, `state = Unused` (also the default for the
never-out-of-range table indexing below). -/
def pcbDflt : PCB := { pid := 0, state := PState.Unused }

/-- `IDLE_PID` from `src/kernel/src/scheduler.rs`. -/
def IDLE_PID : Nat := 0

/-- The selection predicate of `yield_now`:
`p.state == State::Runnable && p.pid != idle_pid` (with `idle_pid = 0`). -/
def runnableNonIdle (p : PCB) : Bool :=
  p.state == PState.Runnable && p.pid != IDLE_PID

/-- The slot sequence visited by
`iter().cycle().skip(current_index + 1).take(PROCS_MAX)`: the `k`-th element
is the slot at `(current_index + 1 + k) % PROCS_MAX` (for a table of
`PROCS_MAX` slots). -/
def scanOrder (procs : List PCB) (currentIndex : Nat) : List PCB :=
  (List.range PROCS_MAX).map
    (fun k => procs.getD ((currentIndex + 1 + k) % PROCS_MAX) pcbDflt)

/-- The next PID chosen by `yield_now`:
`.find(..runnableNonIdle..).map(|p| p.pid).unwrap_or(idle_pid)`. -/
def nextPid (procs : List PCB) (currentIndex : Nat) : Nat :=
  (((scanOrder procs currentIndex).find? runnableNonIdle).map
    (fun p => p.pid)).getD IDLE_PID

theorem scanOrder_length (procs : List PCB) (ci : Nat) :
    (scanOrder procs ci).length = PROCS_MAX := by
  simp [scanOrder]

theorem scanOrder_getD (procs : List PCB) (ci k : Nat) (hk : k < PROCS_MAX) :
    (scanOrder procs ci).getD k pcbDflt
      = procs.getD ((ci + 1 + k) % PROCS_MAX) pcbDflt := by
  unfold scanOrder
  rw [List.getD_eq_getElem _ _ (by simpa using hk)]
  simp

theorem mem_scanOrder {procs : List PCB} {ci : Nat} {q : PCB}
    (h : q ∈ scanOrder procs ci) :
    ∃ i, i < PROCS_MAX ∧ q = procs.getD i pcbDflt := by
  simp only [scanOrder, List.mem_map, List.mem_range] at h
  obtain ⟨k, _, hq⟩ := h
  exact ⟨(ci + 1 + k) % PROCS_MAX, Nat.mod_lt _ (by norm_num [PROCS_MAX]), hq.symm⟩

theorem find?_first {α : Type} (p : α → Bool) (d : α) :
    ∀ (l : List α) (k : Nat), k < l.length → p (l.getD k d) = true →
    (∀ j, j < k → p (l.getD j d) = false) →
    l.find? p = some (l.getD k d) := by
  intro l
  induction l with
  | nil => intro k hk; simp at hk
  | cons a t ih =>
    intro k hk hp hbefore
    cases k with
    | zero =>
      simp only [List.getD_cons_zero] at hp
      simp [List.find?, hp]
    | succ k1 =>
      have ha : p a = false := by
        have := hbefore 0 (by omega)
        simpa using this
      simp only [List.getD_cons_succ] at hp ⊢
      simp only [List.find?, ha]
      exact ih k1 (by simpa using hk) hp
        (fun j hj => by simpa using hbefore (j + 1) (by omega))

/-- **C4.** For every process-table state (8 slots), the PID selected by
`yield_now` is not the idle PID (0) whenever at least one PCB with nonzero
PID is `Runnable`, and is the idle PID whenever no PCB with nonzero PID is
`Runnable`; moreover the scan starts at the slot after the current process
and proceeds cyclically over at most `PROCS_MAX` slots — the first slot in
that cyclic order that is `Runnable` with nonzero PID is the one selected. -/
theorem C4_yield_selection (procs : List PCB) (ci : Nat)
    (hlen : procs.length = PROCS_MAX) :
    ((∃ q ∈ procs, q.pid ≠ 0 ∧ q.state = PState.Runnable) →
      nextPid procs ci ≠ 0) ∧
    ((∀ q ∈ procs, q.pid ≠ 0 → q.state ≠ PState.Runnable) →
      nextPid procs ci = 0) ∧
    (∀ k, k < PROCS_MAX →
      runnableNonIdle (procs.getD ((ci + 1 + k) % PROCS_MAX) pcbDflt) = true →
      (∀ j, j < k →
        runnableNonIdle (procs.getD ((ci + 1 + j) % PROCS_MAX) pcbDflt) = false) →
      nextPid procs ci = (procs.getD ((ci + 1 + k) % PROCS_MAX) pcbDflt).pid) := by
  refine ⟨?_, ?_, ?_⟩
  · rintro ⟨q, hq, hqp, hqs⟩
    -- q sits at some slot j; slot j is visited at scan position k
    obtain ⟨j, hj, hqj⟩ := List.mem_iff_getElem.mp hq
    have hj8 : j < 8 := by
      have := hlen
      simp only [PROCS_MAX] at this
      omega
    have hfind : ∃ r, (scanOrder procs ci).find? runnableNonIdle = some r := by
      have hmem : q ∈ scanOrder procs ci := by
        simp only [scanOrder, List.mem_map, List.mem_range]
        refine ⟨(j + PROCS_MAX - (ci + 1) % PROCS_MAX) % PROCS_MAX, ?_, ?_⟩
        · exact Nat.mod_lt _ (by norm_num [PROCS_MAX])
        · have hidx : (ci + 1 + (j + PROCS_MAX - (ci + 1) % PROCS_MAX) % PROCS_MAX)
              % PROCS_MAX = j := by
            simp only [PROCS_MAX]
            omega
          rw [hidx, List.getD_eq_getElem _ _ (by omega), hqj]
      have : (scanOrder procs ci).find? runnableNonIdle |>.isSome := by
        rw [List.find?_isSome]
        exact ⟨q, hmem, by simp [runnableNonIdle, IDLE_PID, hqs, hqp]⟩
      exact Option.isSome_iff_exists.mp this
    obtain ⟨r, hr⟩ := hfind
    have hrp := List.find?_some hr
    simp only [runnableNonIdle, IDLE_PID, Bool.and_eq_true, beq_iff_eq,
      bne_iff_ne, ne_eq] at hrp
    simp [nextPid, hr, hrp.2]
  · intro hall
    have hnone : (scanOrder procs ci).find? runnableNonIdle = none := by
      rw [List.find?_eq_none]
      intro q hq
      obtain ⟨i, hi, rfl⟩ := mem_scanOrder hq
      by_cases hilen : i < procs.length
      · have hmem : procs.getD i pcbDflt ∈ procs := by
          rw [List.getD_eq_getElem _ _ hilen]
          exact List.getElem_mem hilen
        simp only [runnableNonIdle, IDLE_PID, Bool.and_eq_true, beq_iff_eq,
          bne_iff_ne, ne_eq, not_and]
        intro hst hpid
        exact absurd hst (hall _ hmem hpid)
      · rw [List.getD_eq_default _ _ (by omega)]
        simp [pcbDflt, runnableNonIdle]
    simp [nextPid, hnone, IDLE_PID]
  · intro k hk hpk hbefore
    have hfind : (scanOrder procs ci).find? runnableNonIdle
        = some ((scanOrder procs ci).getD k pcbDflt) := by
      refine find?_first _ _ _ k (by simpa [scanOrder_length] using hk) ?_ ?_
      · rw [scanOrder_getD _ _ _ hk]
        exact hpk
      · intro j hj
        rw [scanOrder_getD _ _ _ (by omega)]
        exact hbefore j hj
    rw [nextPid, hfind, scanOrder_getD _ _ _ hk]
    rfl

/-- Witness for C4: a table with the idle PCB at slot 0 and one runnable
user process (PID 2) at slot 1 selects PID 2, not idle. -/
theorem C4_yield_selection_witness :
    nextPid
      [{ pid := 0, state := PState.Runnable }, { pid := 2, state := PState.Runnable },
       pcbDflt, pcbDflt, pcbDflt, pcbDflt, pcbDflt, pcbDflt] 0 ≠ 0 :=
  (C4_yield_selection _ 0 (by simp [PROCS_MAX])).1
    ⟨{ pid := 2, state := PState.Runnable }, by simp, by simp, rfl⟩

/-! ### Process-state transitions (C6) -/

/-- The `SYS_EXIT` arm of `handle_syscall`: mark the first PCB whose `pid`
equals the current PID as `Exited` (`iter_mut().find(|p| p.pid == current)`). -/
def setExitedByPid : List PCB → Nat → List PCB
  | [], _ => []
  | p :: rest, cur =>
    if p.pid = cur then { p with state := PState.Exited } :: rest
    else p :: setExitedByPid rest cur

/-- The process-table effect of `create_process` (slot index threaded as
`i`): the first `Unused` slot at index `i` becomes `pid = i + 1`,
`state = Runnable`; with no free slot the source panics (modelled as no
change). -/
def createInTable : List PCB → Nat → List PCB
  | [], _ => []
  | p :: rest, i =>
    if p.state = PState.Unused then { pid := i + 1, state := PState.Runnable } :: rest
    else p :: createInTable rest (i + 1)

/-- Index of the first `Unused` slot (the slot `create_process` would take). -/
def firstUnusedIdx : List PCB → Nat → Option Nat
  | [], _ => none
  | p :: rest, i =>
    if p.state = PState.Unused then some i else firstUnusedIdx rest (i + 1)

/-- The idle-process fixup on first `yield_now`: the freshly created PCB
(found again by its returned PID) gets its `pid` forcibly set to `IDLE_PID`. -/
def setPidZeroByPid : List PCB → Nat → List PCB
  | [], _ => []
  | p :: rest, target =>
    if p.pid = target then { p with pid := IDLE_PID } :: rest
    else p :: setPidZeroByPid rest target

/-- The process-table transitions of the kernel: `SYS_EXIT`,
`create_process`, and the first-yield idle initialisation
(`create_process` followed by the PID-0 reassignment).  `yield_now`
selection itself never writes a PCB. -/
inductive SchedStep : List PCB → List PCB → Prop where
  | exit (procs : List PCB) (cur : Nat) :
      SchedStep procs (setExitedByPid procs cur)
  | create (procs : List PCB) :
      SchedStep procs (createInTable procs 0)
  | idleInit (procs : List PCB) (i : Nat)
      (hf : firstUnusedIdx procs 0 = some i) :
      SchedStep procs (setPidZeroByPid (createInTable procs 0) (i + 1))

/-- The PID discipline of the process table: every slot holds either PID 0
(unused or idle) or the PID `slot + 1` that `create_process` assigns. -/
def SchedInv (procs : List PCB) : Prop :=
  procs.length = PROCS_MAX ∧
  ∀ i, i < PROCS_MAX →
    ((procs.getD i pcbDflt).pid = 0 ∨ (procs.getD i pcbDflt).pid = i + 1)

theorem setExitedByPid_length : ∀ (l : List PCB) (cur : Nat),
    (setExitedByPid l cur).length = l.length := by
  intro l
  induction l with
  | nil => intro cur; rfl
  | cons p rest ih =>
    intro cur
    unfold setExitedByPid
    split <;> simp [ih]

theorem setExitedByPid_pid : ∀ (l : List PCB) (cur i : Nat),
    ((setExitedByPid l cur).getD i pcbDflt).pid = (l.getD i pcbDflt).pid := by
  intro l
  induction l with
  | nil => intro cur i; rfl
  | cons p rest ih =>
    intro cur i
    unfold setExitedByPid
    split
    · cases i <;> simp
    · cases i with
      | zero => simp
      | succ n => simpa using ih cur n

theorem setExitedByPid_keeps_exited : ∀ (l : List PCB) (cur k : Nat),
    (l.getD k pcbDflt).state = PState.Exited →
    ((setExitedByPid l cur).getD k pcbDflt).state = PState.Exited := by
  intro l
  induction l with
  | nil => intro cur k h; exact h
  | cons p rest ih =>
    intro cur k h
    unfold setExitedByPid
    split
    · cases k <;> simp_all
    · cases k <;> simp_all [ih]

theorem setExitedByPid_hits_first : ∀ (l : List PCB) (cur k : Nat),
    (l.getD k pcbDflt).pid = cur → k < l.length →
    (∀ j, j < k → (l.getD j pcbDflt).pid ≠ cur) →
    ((setExitedByPid l cur).getD k pcbDflt).state = PState.Exited := by
  intro l
  induction l with
  | nil => intro cur k _ hk; simp at hk
  | cons p rest ih =>
    intro cur k hpid hk hbefore
    unfold setExitedByPid
    cases k with
    | zero =>
      simp only [List.getD_cons_zero] at hpid
      rw [if_pos hpid]
      simp
    | succ k1 =>
      have hp : p.pid ≠ cur := by
        have := hbefore 0 (by omega)
        simpa using this
      rw [if_neg hp]
      simp only [List.getD_cons_succ] at hpid ⊢
      exact ih cur k1 hpid (by simpa using hk)
        (fun j hj => by simpa using hbefore (j + 1) (by omega))

theorem createInTable_length : ∀ (l : List PCB) (i : Nat),
    (createInTable l i).length = l.length := by
  intro l
  induction l with
  | nil => intro i; rfl
  | cons p rest ih =>
    intro i
    unfold createInTable
    split <;> simp [ih]

theorem createInTable_keeps_nonUnused : ∀ (l : List PCB) (i k : Nat),
    (l.getD k pcbDflt).state ≠ PState.Unused →
    (createInTable l i).getD k pcbDflt = l.getD k pcbDflt := by
  intro l
  induction l with
  | nil => intro i k _; rfl
  | cons p rest ih =>
    intro i k h
    unfold createInTable
    split
    · cases k with
      | zero => simp_all
      | succ k1 => simp
    · cases k with
      | zero => simp
      | succ k1 => simpa using ih (i + 1) k1 (by simpa using h)

/-- PID discipline relative to a base slot index. -/
def pidInvFrom (i0 : Nat) (l : List PCB) : Prop :=
  ∀ k, k < l.length →
    ((l.getD k pcbDflt).pid = 0 ∨ (l.getD k pcbDflt).pid = i0 + k + 1)

theorem createInTable_pidInv : ∀ (l : List PCB) (i0 : Nat),
    pidInvFrom i0 l → pidInvFrom i0 (createInTable l i0) := by
  intro l
  induction l with
  | nil => intro i0 h; exact h
  | cons p rest ih =>
    intro i0 h
    unfold createInTable
    split
    · intro k hk
      cases k with
      | zero => simp
      | succ k1 =>
        have hk1 : k1 < rest.length := by simpa using hk
        have := h (k1 + 1) (by simpa using hk1)
        simpa using this
    · intro k hk
      cases k with
      | zero => simpa using h 0 (by simp)
      | succ k1 =>
        have hlen : k1 < (createInTable rest (i0 + 1)).length := by
          simp only [List.length_cons] at hk
          omega
        have hrec := ih (i0 + 1) (fun j hj => by
          have := h (j + 1) (by simpa using hj)
          simp only [List.getD_cons_succ] at this
          omega) k1 hlen
        simp only [List.getD_cons_succ]
        omega

theorem setPidZeroByPid_length : ∀ (l : List PCB) (t : Nat),
    (setPidZeroByPid l t).length = l.length := by
  intro l
  induction l with
  | nil => intro t; rfl
  | cons p rest ih =>
    intro t
    unfold setPidZeroByPid
    split <;> simp [ih]

theorem setPidZeroByPid_keeps_other : ∀ (l : List PCB) (t k : Nat),
    (l.getD k pcbDflt).pid ≠ t →
    (setPidZeroByPid l t).getD k pcbDflt = l.getD k pcbDflt := by
  intro l
  induction l with
  | nil => intro t k _; rfl
  | cons p rest ih =>
    intro t k h
    unfold setPidZeroByPid
    split
    · cases k with
      | zero => simp_all
      | succ k1 => simp
    · cases k with
      | zero => simp
      | succ k1 => simpa using ih t k1 (by simpa using h)

theorem setPidZeroByPid_pid_cases : ∀ (l : List PCB) (t k : Nat),
    ((setPidZeroByPid l t).getD k pcbDflt).pid = 0 ∨
    ((setPidZeroByPid l t).getD k pcbDflt).pid = (l.getD k pcbDflt).pid := by
  intro l
  induction l with
  | nil => intro t k; left; rfl
  | cons p rest ih =>
    intro t k
    unfold setPidZeroByPid
    split
    · cases k with
      | zero => left; simp [IDLE_PID]
      | succ k1 => right; simp
    · cases k with
      | zero => right; simp
      | succ k1 => simpa using ih t k1

theorem firstUnusedIdx_spec : ∀ (l : List PCB) (i0 i : Nat),
    firstUnusedIdx l i0 = some i →
    i0 ≤ i ∧ i - i0 < l.length ∧ (l.getD (i - i0) pcbDflt).state = PState.Unused := by
  intro l
  induction l with
  | nil => intro i0 i h; simp [firstUnusedIdx] at h
  | cons p rest ih =>
    intro i0 i h
    unfold firstUnusedIdx at h
    split at h
    · simp only [Option.some.injEq] at h
      subst h
      refine ⟨Nat.le_refl _, by simp, ?_⟩
      simp_all
    · obtain ⟨h1, h2, h3⟩ := ih (i0 + 1) i h
      refine ⟨by omega, by simp; omega, ?_⟩
      have hshape : i - i0 = (i - (i0 + 1)) + 1 := by omega
      rw [hshape]
      simpa using h3

/-- Slot `k` holds an `Exited` PCB with PID `p`. -/
def ExitedAt (procs : List PCB) (k p : Nat) : Prop :=
  (procs.getD k pcbDflt).state = PState.Exited ∧ (procs.getD k pcbDflt).pid = p

theorem schedStep_preserves {procs procs2 : List PCB} {k p : Nat}
    (hstep : SchedStep procs procs2) (hinv : SchedInv procs)
    (hk : k < PROCS_MAX) (hp : p ≠ 0) (hex : ExitedAt procs k p) :
    SchedInv procs2 ∧ ExitedAt procs2 k p := by
  obtain ⟨hlen, hpids⟩ := hinv
  obtain ⟨hexs, hexp⟩ := hex
  have hcreateInv : ∀ j, j < PROCS_MAX →
      (((createInTable procs 0).getD j pcbDflt).pid = 0 ∨
       ((createInTable procs 0).getD j pcbDflt).pid = j + 1) := by
    intro j hj
    have hpi : pidInvFrom 0 procs := by
      intro j1 hj1
      have := hpids j1 (by omega)
      omega
    have := createInTable_pidInv procs 0 hpi j
      (by rw [createInTable_length]; omega)
    omega
  have hcreateKeep : (createInTable procs 0).getD k pcbDflt
      = procs.getD k pcbDflt :=
    createInTable_keeps_nonUnused procs 0 k (by rw [hexs]; simp)
  cases hstep with
  | exit cur =>
    refine ⟨⟨by rw [setExitedByPid_length]; exact hlen,
      fun i hi => by rw [setExitedByPid_pid]; exact hpids i hi⟩,
      setExitedByPid_keeps_exited procs cur k hexs,
      by rw [setExitedByPid_pid]; exact hexp⟩
  | create =>
    refine ⟨⟨by rw [createInTable_length]; exact hlen, hcreateInv⟩, ?_, ?_⟩
    · rw [hcreateKeep]; exact hexs
    · rw [hcreateKeep]; exact hexp
  | idleInit i hf =>
    obtain ⟨-, hiLen, hiUn⟩ := firstUnusedIdx_spec procs 0 i hf
    simp only [Nat.sub_zero] at hiLen hiUn
    have hki : k ≠ i := by
      intro he
      subst he
      rw [hexs] at hiUn
      exact PState.noConfusion hiUn
    have hpk : p = k + 1 := by
      have := hpids k hk
      omega
    have hne : ((createInTable procs 0).getD k pcbDflt).pid ≠ i + 1 := by
      rw [hcreateKeep, hexp, hpk]
      omega
    have hkeep2 := setPidZeroByPid_keeps_other (createInTable procs 0) (i + 1) k hne
    refine ⟨⟨by rw [setPidZeroByPid_length, createInTable_length]; exact hlen, ?_⟩, ?_, ?_⟩
    · intro j hj
      rcases setPidZeroByPid_pid_cases (createInTable procs 0) (i + 1) j with h0 | hold
      · left; exact h0
      · rw [hold]
        exact hcreateInv j hj
    · rw [hkeep2, hcreateKeep]; exact hexs
    · rw [hkeep2, hcreateKeep]; exact hexp

theorem nextPid_ne_exited {procs : List PCB} {k p : Nat} (ci : Nat)
    (hinv : SchedInv procs) (hk : k < PROCS_MAX) (hp : p ≠ 0)
    (hex : ExitedAt procs k p) : nextPid procs ci ≠ p := by
  obtain ⟨hlen, hpids⟩ := hinv
  obtain ⟨hexs, hexp⟩ := hex
  intro hcontr
  unfold nextPid at hcontr
  cases hfind : (scanOrder procs ci).find? runnableNonIdle with
  | none =>
    rw [hfind] at hcontr
    have h0 : p = 0 := by
      rw [← hcontr]
      rfl
    exact hp h0
  | some q =>
    rw [hfind] at hcontr
    have hq0 : q.pid = p := by
      rw [← hcontr]
      rfl
    have hpred := List.find?_some hfind
    simp only [runnableNonIdle, IDLE_PID, Bool.and_eq_true, beq_iff_eq,
      bne_iff_ne, ne_eq] at hpred
    obtain ⟨idx, hidx, hq⟩ := mem_scanOrder (List.mem_of_find?_eq_some hfind)
    have hqp : (procs.getD idx pcbDflt).pid = p := by rw [← hq]; exact hq0
    have hidxk : idx = k := by
      have h1 := hpids idx hidx
      have h2 := hpids k hk
      omega
    subst hidxk
    rw [hq, hexs] at hpred
    exact PState.noConfusion hpred.1

theorem nextPid_picks_runnable (procs : List PCB) (ci : Nat) :
    nextPid procs ci = 0 ∨
    ∃ i, i < PROCS_MAX ∧ (procs.getD i pcbDflt).pid = nextPid procs ci ∧
      (procs.getD i pcbDflt).state = PState.Runnable := by
  cases hfind : (scanOrder procs ci).find? runnableNonIdle with
  | none => left; simp [nextPid, hfind, IDLE_PID]
  | some q =>
    right
    have hpred := List.find?_some hfind
    simp only [runnableNonIdle, IDLE_PID, Bool.and_eq_true, beq_iff_eq,
      bne_iff_ne, ne_eq] at hpred
    obtain ⟨idx, hidx, hq⟩ := mem_scanOrder (List.mem_of_find?_eq_some hfind)
    refine ⟨idx, hidx, ?_, by rw [← hq]; exact hpred.1⟩
    rw [← hq]
    simp [nextPid, hfind]

/-- **C6.** After a process executes the EXIT syscall (sysno 3), its PCB
state is `Exited`, and in every subsequently reachable state (under the
kernel's transitions: EXIT, `create_process`, idle initialisation) the
scheduler never selects that PID again: no transition returns an `Exited`
PCB to `Runnable`, and `yield_now` only picks `Runnable` PCBs (or the idle
PID 0). -/
theorem C6_exit_terminal (procs : List PCB) (k p : Nat)
    (hinv : SchedInv procs) (hk : k < PROCS_MAX)
    (hpid : (procs.getD k pcbDflt).pid = p) (hp : p ≠ 0) :
    ExitedAt (setExitedByPid procs p) k p ∧
    (∀ procs2, Relation.ReflTransGen SchedStep (setExitedByPid procs p) procs2 →
      ExitedAt procs2 k p ∧ ∀ ci, nextPid procs2 ci ≠ p) ∧
    (∀ procs3 ci, nextPid procs3 ci = 0 ∨
      ∃ i, i < PROCS_MAX ∧ (procs3.getD i pcbDflt).pid = nextPid procs3 ci ∧
        (procs3.getD i pcbDflt).state = PState.Runnable) := by
  obtain ⟨hlen, hpids⟩ := hinv
  have hpk : p = k + 1 := by
    have := hpids k hk
    omega
  have hfirst : ∀ j, j < k → (procs.getD j pcbDflt).pid ≠ p := by
    intro j hj
    have := hpids j (by omega)
    omega
  have hmark : ExitedAt (setExitedByPid procs p) k p :=
    ⟨setExitedByPid_hits_first procs p k hpid
        (by rw [hlen]; exact hk) hfirst,
      by rw [setExitedByPid_pid]; exact hpid⟩
  have hinv1 : SchedInv (setExitedByPid procs p) :=
    ⟨by rw [setExitedByPid_length]; exact hlen,
     fun i hi => by rw [setExitedByPid_pid]; exact hpids i hi⟩
  have hreach : ∀ procs2,
      Relation.ReflTransGen SchedStep (setExitedByPid procs p) procs2 →
      SchedInv procs2 ∧ ExitedAt procs2 k p := by
    intro procs2 h
    induction h with
    | refl => exact ⟨hinv1, hmark⟩
    | tail _ hstep ih => exact schedStep_preserves hstep ih.1 hk hp ih.2
  refine ⟨hmark, ?_, fun procs3 ci => nextPid_picks_runnable procs3 ci⟩
  intro procs2 h2
  obtain ⟨hi2, he2⟩ := hreach procs2 h2
  exact ⟨he2, fun ci => nextPid_ne_exited ci hi2 hk hp he2⟩

/-- Witness for C6: in a table with the idle PCB and a runnable PID 2, after
PID 2 exits it is marked `Exited` and the immediate next selection does not
pick PID 2. -/
theorem C6_exit_terminal_witness :
    ExitedAt
      (setExitedByPid
        [{ pid := 0, state := PState.Runnable }, { pid := 2, state := PState.Runnable },
         pcbDflt, pcbDflt, pcbDflt, pcbDflt, pcbDflt, pcbDflt] 2) 1 2 ∧
    nextPid
      (setExitedByPid
        [{ pid := 0, state := PState.Runnable }, { pid := 2, state := PState.Runnable },
         pcbDflt, pcbDflt, pcbDflt, pcbDflt, pcbDflt, pcbDflt] 2) 1 ≠ 2 := by
  refine ⟨(C6_exit_terminal _ 1 2 ⟨by simp [PROCS_MAX], by decide⟩ (by decide)
    (by decide) (by decide)).1, ?_⟩
  exact ((C6_exit_terminal _ 1 2 ⟨by simp [PROCS_MAX], by decide⟩ (by decide)
    (by decide) (by decide)).2.1 _ Relation.ReflTransGen.refl).2 1

/-! ### VirtIO block driver (`src/kernel/src/virtio.rs`) -/

/-- Descriptor flag `VIRTQ_DESC_F_NEXT`. -/
def VIRTQ_DESC_F_NEXT : Nat := 1

/-- Descriptor flag `VIRTQ_DESC_F_WRITE` (device-writable). -/
def VIRTQ_DESC_F_WRITE : Nat := 2

/-- Request type `VIRTIO_BLK_T_IN` (device-to-driver, a read). -/
def VIRTIO_BLK_T_IN : Nat := 0

/-- Request type `VIRTIO_BLK_T_OUT` (driver-to-device, a write). -/
def VIRTIO_BLK_T_OUT : Nat := 1

/-- A virtqueue descriptor (`VirtqDesc`). -/
structure VirtqDesc where
  addr : Nat
  len : Nat
  flags : Nat
  next : Nat
  deriving DecidableEq, Repr

/-- The global request buffer `VirtioBlkReq` (`req_type`, `sector`, the
512-byte `data` area, the device-written `status`; `reserved` omitted as it
is never read or written). -/
structure VirtioBlkReq where
  req_type : Nat
  sector : Nat
  data : List Nat
  status : Nat
  deriving DecidableEq, Repr

/-- The request header `read_write_disk` fills in before kicking the device:
`sector`, `req_type = OUT` for writes / `IN` for reads, and for writes the
caller's buffer copied into `data`. -/
def submitReq (req0 : VirtioBlkReq) (buf : List Nat) (sector : Nat)
    (isWrite : Bool) : VirtioBlkReq :=
  { req0 with
    sector := sector,
    req_type := if isWrite then VIRTIO_BLK_T_OUT else VIRTIO_BLK_T_IN,
    data := if isWrite then buf else req0.data }

/-- The three-descriptor chain built by `read_write_disk`: the 16-byte header
(`u32 + u32 + u64`), the 512-byte data area (device-writable for reads), and
the status byte at offset 528 (device-writable). -/
def blkDescs (blkReqPaddr : Nat) (isWrite : Bool) : List VirtqDesc :=
  [{ addr := blkReqPaddr, len := 16, flags := VIRTQ_DESC_F_NEXT, next := 1 },
   { addr := blkReqPaddr + 16, len := SECTOR_SIZE,
     flags := VIRTQ_DESC_F_NEXT ||| (if isWrite then 0 else VIRTQ_DESC_F_WRITE),
     next := 2 },
   { addr := blkReqPaddr + 528, len := 1, flags := VIRTQ_DESC_F_WRITE, next := 0 }]

/-- Outcome of `read_write_disk`: the caller's buffer, the request buffer
after completion, and the descriptor chain that was submitted (empty when the
request was rejected before submission). -/
structure RWResult where
  buf : List Nat
  req : VirtioBlkReq
  descs : List VirtqDesc
  deriving DecidableEq, Repr

/-- `read_write_disk(buf, sector, is_write)` from `src/kernel/src/virtio.rs`.
The device is an oracle `dev` mapping the submitted request buffer to its
contents after the used-ring index catches up (the busy-wait loop).  Control
flow of the source: reject `sector ≥ capacity / SECTOR_SIZE` with no effect;
fill the request header and descriptors and kick; after completion a nonzero
`status` logs and returns, leaving the caller's buffer untouched; only a read
with `status == 0` copies the request's `data` back into the buffer. -/
def readWriteDisk (dev : VirtioBlkReq → VirtioBlkReq) (blkCapacity : Nat)
    (req0 : VirtioBlkReq) (buf : List Nat) (sector : Nat) (isWrite : Bool)
    (blkReqPaddr : Nat) : RWResult :=
  if blkCapacity / SECTOR_SIZE ≤ sector then
    { buf := buf, req := req0, descs := [] }
  else
    let done := dev (submitReq req0 buf sector isWrite)
    if done.status ≠ 0 then
      { buf := buf, req := done, descs := blkDescs blkReqPaddr isWrite }
    else if isWrite then
      { buf := buf, req := done, descs := blkDescs blkReqPaddr isWrite }
    else
      { buf := done.data, req := done, descs := blkDescs blkReqPaddr isWrite }

/-- **C7.** For every read request (`is_write = false`) to
`read_write_disk(buf, sector, is_write)`, the caller's buffer is left
unchanged whenever `sector ≥ capacity / 512` or the device status byte after
completion is nonzero; `buf` is overwritten with the sector data (the data
area of the completed request) only when the sector is in range and the
status equals 0. -/
theorem C7_read_disk_buffer (dev : VirtioBlkReq → VirtioBlkReq)
    (blkCapacity : Nat) (req0 : VirtioBlkReq) (buf : List Nat)
    (sector blkReqPaddr : Nat) :
    (blkCapacity / SECTOR_SIZE ≤ sector →
      (readWriteDisk dev blkCapacity req0 buf sector false blkReqPaddr).buf = buf) ∧
    (sector < blkCapacity / SECTOR_SIZE →
      (dev (submitReq req0 buf sector false)).status ≠ 0 →
      (readWriteDisk dev blkCapacity req0 buf sector false blkReqPaddr).buf = buf) ∧
    (sector < blkCapacity / SECTOR_SIZE →
      (dev (submitReq req0 buf sector false)).status = 0 →
      (readWriteDisk dev blkCapacity req0 buf sector false blkReqPaddr).buf
        = (dev (submitReq req0 buf sector false)).data) := by
  refine ⟨?_, ?_, ?_⟩
  · intro hoor
    unfold readWriteDisk
    rw [if_pos hoor]
  · intro hin hst
    unfold readWriteDisk
    rw [if_neg (by omega)]
    simp only [hst, ne_eq, not_false_eq_true, if_true]
  · intro hin hst
    unfold readWriteDisk
    rw [if_neg (by omega)]
    simp [hst]

/-- Witness for C7: a concrete out-of-range read (capacity 524288 bytes =
1024 sectors, sector 1024) leaves the buffer untouched. -/
theorem C7_read_disk_buffer_witness :
    (readWriteDisk (fun r => { r with status := 0 }) 524288
      { req_type := 0, sector := 0, data := List.replicate 512 0, status := 0 }
      [1, 2, 3] 1024 false 0).buf = [1, 2, 3] :=
  (C7_read_disk_buffer (fun r => { r with status := 0 }) 524288
    { req_type := 0, sector := 0, data := List.replicate 512 0, status := 0 }
    [1, 2, 3] 1024 0).1 (by norm_num [SECTOR_SIZE])

/-! ### The `user_entry` thunks (C5) -/

/-- `USER_BASE` (`src/kernel/src/process.rs`, `src/kernel/src/entry.rs`). -/
def USER_BASE : Nat := 0x1000000

/-- `SSTATUS_SPIE = 1 << 5`. -/
def SSTATUS_SPIE : Nat := 1 <<< 5

/-- `SSTATUS_SUM = 1 << 18` (defined in `src/kernel/src/entry.rs` only). -/
def SSTATUS_SUM : Nat := 1 <<< 18

/-- The repository contains two functions named `user_entry`: the private one
in `src/kernel/src/process.rs` and the public naked one in
`src/kernel/src/entry.rs`. -/
inductive UserEntryThunk where
  | processModule
  | entryModule
  deriving DecidableEq, Repr

/-- The `(sepc, sstatus)` pair each thunk writes before `sret`:
`process.rs::user_entry` writes `sstatus = SSTATUS_SPIE` only;
`entry.rs::user_entry` writes `sstatus = SSTATUS_SPIE | SSTATUS_SUM`. -/
def thunkWrites : UserEntryThunk → Nat × Nat
  | UserEntryThunk.processModule => (USER_BASE, SSTATUS_SPIE)
  | UserEntryThunk.entryModule => (USER_BASE, SSTATUS_SPIE ||| SSTATUS_SUM)

/-- The thunk whose address `create_process` stores as the initial `ra` of a
new process: the unqualified name `user_entry` inside `process.rs` resolves
to the module-local `process.rs::user_entry` (entry.rs's `user_entry` is not
imported there and is referenced nowhere). -/
def createProcessRa : UserEntryThunk := UserEntryThunk.processModule

/-- **C5 (code evaluated at the failing point).** The thunk `create_process`
actually installs writes `USER_BASE` to `sepc` but only `SPIE` to `sstatus` —
not the `SPIE|SUM` the claim (and the syscall path, which dereferences user
pointers from S-mode) requires; the thunk that does write `SPIE|SUM` is the
dead `entry.rs::user_entry`. -/
theorem C5_user_entry_divergence :
    (thunkWrites createProcessRa).1 = USER_BASE ∧
    (thunkWrites createProcessRa).2 = SSTATUS_SPIE ∧
    (thunkWrites createProcessRa).2 ≠ SSTATUS_SPIE ||| SSTATUS_SUM ∧
    (thunkWrites UserEntryThunk.entryModule).2 = SSTATUS_SPIE ||| SSTATUS_SUM :=
  ⟨rfl, rfl, by decide, rfl⟩

end OS1K
